import Mathlib

/-!
# ALinux stub executables: acomp, alogin, introibo

A shallow embedding of the three C programs of the repository
(`src/acomp/main.c`, `src/alogin/main.c`, `src/introibo/main.c`) and the
properties of them that the specification states.

Conventions of the embedding.

* C pointers are natural numbers and `NULL` is `0`; a `const char *` that may
  be `NULL` is an `Option`.
* A byte is a natural number (the values a C `char` takes are those below 256;
  nothing below depends on the bound).
* The Wayland library and libc are external.  Every call the programs make is
  recorded, with its arguments, in a call sequence; what a library call returns
  is supplied by a `World`.  libc functions the programs rely on (`setenv`,
  `fgets`, `strcspn`, `atoi`) are given by their documented behaviour.
* `acomp` is interrupted by asynchronous signals, so it is a transition system
  with one program counter per source line; `alogin` and `introibo` are
  sequential and are functions from a `World` to a result.
-/

namespace ALinux

/-- A byte of a C string or of an input stream. -/
abbrev Byte := Nat

/-- The process environment: the value of each variable, if set. -/
abbrev Env := String → Option String

/-- POSIX `setenv(name, value, overwrite)` on its success path: the variable is
(re)bound when `overwrite` is non-zero or when it is not set yet. -/
def setenv (env : Env) (name value : String) (overwrite : Int) : Env :=
  fun k => if k = name ∧ (overwrite ≠ 0 ∨ env name = none) then some value else env k

/-! ## acomp (`src/acomp/main.c`) -/

namespace Acomp

/-- Signal number of `SIGINT` (Linux). -/
def SIGINT : Int := 2

/-- Signal number of `SIGTERM` (Linux). -/
def SIGTERM : Int := 15

/-- The two signals the specification speaks of. -/
inductive Sig
  | sigint
  | sigterm
  deriving DecidableEq, Repr

/-- The number under which a signal is delivered to its handler. -/
def Sig.num : Sig → Int
  | .sigint => SIGINT
  | .sigterm => SIGTERM

/-- The library calls `main` makes, with their arguments.  The event loop
passed to `wl_event_loop_dispatch` is the one the preceding
`wl_display_get_event_loop` returned, so only the timeout is recorded for it.
Writes to stdout/stderr do not influence control flow and are not recorded. -/
inductive Call
  | signal (signum : Int)
  | wl_display_create
  | wl_display_add_socket_auto (display : Nat)
  | setenv (name value : String) (overwrite : Int)
  | wl_display_flush_clients (display : Nat)
  | wl_display_get_event_loop (display : Nat)
  | wl_event_loop_dispatch (timeout : Int)
  | wl_display_destroy (display : Nat)
  deriving DecidableEq, Repr

/-- Program counter: the source line of `main` that executes next, or the way
the process has ended (`exited c`: `main` returned `c`; `killed n`: the
default action of signal `n` terminated the process). -/
inductive Pc
  | l21
  | l22
  | l24
  | l30
  | l39
  | l44
  | l45
  | l46
  | l50
  | exited (code : Int)
  | killed (signum : Int)
  deriving DecidableEq, Repr

/-- What the Wayland server library answers. -/
structure World where
  /-- Result of `wl_display_create()`; `0` is `NULL`. -/
  create : Nat
  /-- Result of `wl_display_add_socket_auto(display)`; `none` is `NULL`. -/
  socket : Option String

/-- The state of the process. -/
structure State where
  pc : Pc
  /-- The static `display`. -/
  display : Nat
  /-- The static `running`. -/
  running : Bool
  /-- The local `socket` of `main`. -/
  socket : Option String
  /-- Signal numbers for which `handle_signal` is installed. -/
  handlers : List Int
  env : Env
  /-- Library calls made so far, oldest first. -/
  calls : List Call

/-- Process start: `display = NULL`, `running = true`, default signal actions. -/
def init (e0 : Env) : State :=
  { pc := .l21, display := 0, running := true, socket := none, handlers := [],
    env := e0, calls := [] }

/-- The function `handle_signal` (lines 10-12). -/
def handle_signal (_sig : Int) (s : State) : State :=
  { s with running := false }

/-- One statement of `main` (lines 21-52). -/
def step (w : World) (s : State) : State :=
  match s.pc with
  | .l21 =>
    { s with pc := .l22, handlers := SIGINT :: s.handlers,
             calls := s.calls ++ [Call.signal SIGINT] }
  | .l22 =>
    { s with pc := .l24, handlers := SIGTERM :: s.handlers,
             calls := s.calls ++ [Call.signal SIGTERM] }
  | .l24 =>
    let s1 := { s with display := w.create, calls := s.calls ++ [Call.wl_display_create] }
    if s1.display = 0 then { s1 with pc := .exited 1 } else { s1 with pc := .l30 }
  | .l30 =>
    let s1 := { s with socket := w.socket,
                       calls := s.calls ++ [Call.wl_display_add_socket_auto s.display] }
    match s1.socket with
    | none =>
      { s1 with pc := .exited 1, calls := s1.calls ++ [Call.wl_display_destroy s1.display] }
    | some _ => { s1 with pc := .l39 }
  | .l39 =>
    match s.socket with
    | none => s
    | some nm =>
      { s with pc := .l44, env := setenv s.env "WAYLAND_DISPLAY" nm 1,
               calls := s.calls ++ [.setenv "WAYLAND_DISPLAY" nm 1] }
  | .l44 => if s.running then { s with pc := .l45 } else { s with pc := .l50 }
  | .l45 =>
    { s with pc := .l46, calls := s.calls ++ [Call.wl_display_flush_clients s.display] }
  | .l46 =>
    { s with pc := .l44,
             calls := s.calls ++ [Call.wl_display_get_event_loop s.display,
                                  Call.wl_event_loop_dispatch 100] }
  | .l50 =>
    { s with pc := .exited 0, calls := s.calls ++ [Call.wl_display_destroy s.display] }
  | .exited _ => s
  | .killed _ => s

/-- Delivery of a signal to the process: the installed handler runs, or the
default action (termination, for both signals) is taken. -/
def deliver (sig : Sig) (s : State) : State :=
  match s.pc with
  | .exited _ => s
  | .killed _ => s
  | _ =>
    if sig.num ∈ s.handlers then handle_signal sig.num s
    else { s with pc := .killed sig.num }

/-- What happens next: the program executes its next statement, or a signal
arrives. -/
inductive Event
  | step
  | signal (sig : Sig)
  deriving DecidableEq, Repr

/-- The effect of one event. -/
def apply (w : World) (s : State) : Event → State
  | .step => step w s
  | .signal sig => deliver sig s

/-- The state after a schedule of events. -/
def exec (w : World) (evs : List Event) (s : State) : State :=
  evs.foldl (apply w) s

/-- Number of program statements a schedule executes. -/
def steps (evs : List Event) : Nat :=
  evs.count .step

/-- Start-up failed: no display, or no socket. -/
def World.failed (w : World) : Prop :=
  w.create = 0 ∨ w.socket = none

instance (w : World) : Decidable w.failed := by
  unfold World.failed; infer_instance

/-- The calls of start-up when it succeeds (lines 21-39). -/
def setup (d : Nat) (nm : String) : List Call :=
  [.signal SIGINT, .signal SIGTERM, .wl_display_create, .wl_display_add_socket_auto d,
   .setenv "WAYLAND_DISPLAY" nm 1]

/-- The calls of one iteration of the loop (lines 45-46). -/
def tick (d : Nat) : List Call :=
  [.wl_display_flush_clients d, .wl_display_get_event_loop d, .wl_event_loop_dispatch 100]

/-- The calls of `n` iterations. -/
def ticks (d : Nat) : Nat → List Call
  | 0 => []
  | n + 1 => ticks d n ++ tick d

/-- Is the call one of the two loop actions (flush, poll-and-dispatch)? -/
def Call.isLoopAction : Call → Bool
  | .wl_display_flush_clients _ => true
  | .wl_event_loop_dispatch _ => true
  | _ => false

/-- Is the call a `wl_event_loop_dispatch`? -/
def Call.isDispatch : Call → Bool
  | .wl_event_loop_dispatch _ => true
  | _ => false

/-- Is the call a `wl_display_flush_clients`? -/
def Call.isFlush : Call → Bool
  | .wl_display_flush_clients _ => true
  | _ => false

/-- The calls made after the last `wl_event_loop_dispatch` (all calls when
there is none). -/
def afterLastDispatch (cs : List Call) : List Call :=
  (cs.reverse.takeWhile fun c => !c.isDispatch).reverse

/-- The loop actions among the calls, in order. -/
def loopActions (cs : List Call) : List Call :=
  cs.filter Call.isLoopAction

/-- The two loop actions of one iteration, in the order of lines 45-46. -/
def flushDispatch (d : Nat) : List Call :=
  [Call.wl_display_flush_clients d, Call.wl_event_loop_dispatch 100]

/-- The two loop actions in the order poll-and-dispatch, then flush. -/
def dispatchFlush (d : Nat) : List Call :=
  [Call.wl_event_loop_dispatch 100, Call.wl_display_flush_clients d]

/-- Facts that hold from the loop on: both handlers are installed, the display
exists, the socket is named `nm` and the environment holds that name. -/
def Ready (w : World) (e0 : Env) (nm : String) (s : State) : Prop :=
  s.handlers = [SIGTERM, SIGINT] ∧ w.create ≠ 0 ∧ s.display = w.create ∧
    w.socket = some nm ∧ s.env = setenv e0 "WAYLAND_DISPLAY" nm 1

/-- Program points at which both handlers are installed and the process has
not been terminated by a signal. -/
def Pc.armed : Pc → Bool
  | .l21 => false
  | .l22 => false
  | .killed _ => false
  | _ => true

/-- An upper bound on the statements `main` still executes once `running` is
false (or start-up fails). -/
def remaining (w : World) : Pc → Nat
  | .l21 => 7
  | .l22 => 6
  | .l24 => if w.create = 0 then 1 else if w.socket = none then 2 else 5
  | .l30 => if w.socket = none then 1 else 4
  | .l39 => 3
  | .l44 => 2
  | .l45 => 4
  | .l46 => 3
  | .l50 => 1
  | .exited _ => 0
  | .killed _ => 0

/-- Number of `wl_display_flush_clients` calls made, plus one when an iteration
has been entered (line 44 passed) whose flush is still to come. -/
def iterationsBegun (s : State) : Nat :=
  (s.calls.filter Call.isFlush).length + (if s.pc = .l45 then 1 else 0)

/-- A schedule with exactly `n` loop iterations: start-up, `n` iterations, a
signal, then the exit path. -/
def schedule (n : Nat) (sig : Sig) : List Event :=
  List.replicate (5 + 3 * n) Event.step ++ [Event.signal sig, Event.step, Event.step]

/-- What is known of the state at each program point, for a process started
with environment `e0`. -/
def Inv (w : World) (e0 : Env) (s : State) : Prop :=
  match s.pc with
  | .l21 => s.handlers = [] ∧ s.env = e0 ∧ s.calls = []
  | .l22 => s.handlers = [SIGINT] ∧ s.env = e0 ∧ s.calls = [Call.signal SIGINT]
  | .l24 => s.handlers = [SIGTERM, SIGINT] ∧ s.env = e0 ∧
      s.calls = [Call.signal SIGINT, Call.signal SIGTERM]
  | .l30 => s.handlers = [SIGTERM, SIGINT] ∧ s.env = e0 ∧ w.create ≠ 0 ∧
      s.display = w.create ∧
      s.calls = [Call.signal SIGINT, Call.signal SIGTERM, Call.wl_display_create]
  | .l39 => s.handlers = [SIGTERM, SIGINT] ∧ s.env = e0 ∧ w.create ≠ 0 ∧
      s.display = w.create ∧ s.socket = w.socket ∧ w.socket ≠ none ∧
      s.calls = [Call.signal SIGINT, Call.signal SIGTERM, Call.wl_display_create,
                 Call.wl_display_add_socket_auto w.create]
  | .l44 => ∃ nm n, Ready w e0 nm s ∧ s.calls = setup w.create nm ++ ticks w.create n
  | .l45 => ∃ nm n, Ready w e0 nm s ∧ s.calls = setup w.create nm ++ ticks w.create n
  | .l46 => ∃ nm n, Ready w e0 nm s ∧
      s.calls = setup w.create nm ++ ticks w.create n ++ [Call.wl_display_flush_clients w.create]
  | .l50 => ∃ nm n, Ready w e0 nm s ∧ s.running = false ∧
      s.calls = setup w.create nm ++ ticks w.create n
  | .exited c =>
      (c = 1 ∧ s.env = e0 ∧ w.create = 0 ∧
        s.calls = [Call.signal SIGINT, Call.signal SIGTERM, Call.wl_display_create]) ∨
      (c = 1 ∧ s.env = e0 ∧ w.create ≠ 0 ∧ w.socket = none ∧
        s.calls = [Call.signal SIGINT, Call.signal SIGTERM, Call.wl_display_create,
                   Call.wl_display_add_socket_auto w.create,
                   Call.wl_display_destroy w.create]) ∨
      (c = 0 ∧ ∃ nm n, Ready w e0 nm s ∧ s.running = false ∧
        s.calls = setup w.create nm ++ ticks w.create n ++ [Call.wl_display_destroy w.create])
  | .killed _ => s.env = e0 ∧ SIGTERM ∉ s.handlers ∧
      (s.calls = [] ∨ s.calls = [Call.signal SIGINT])

end Acomp

/-! ## libc functions used by the clients -/

/-- The bytes `fgets` stores for a limit of `n` bytes: the stream up to and
including its first newline, but at most `n` bytes. -/
def fgetsLine : Nat → List Byte → List Byte
  | 0, _ => []
  | _ + 1, [] => []
  | n + 1, c :: cs => if c = 10 then [c] else c :: fgetsLine n cs

/-- The function `fgets(buf, size, stream)`: the buffer afterwards when the call
returns `buf` (`none` when it returns `NULL`, which leaves the buffer as it was),
and the rest of the stream.  At most `size - 1` bytes are stored, followed by a
terminating NUL; at end of file with nothing read the result is `NULL`. -/
def fgets (buf : List Byte) (size : Nat) (stream : List Byte) :
    Option (List Byte) × List Byte :=
  if size = 0 then (none, stream)
  else
    let line := fgetsLine (size - 1) stream
    if size ≠ 1 ∧ line = [] then (none, stream)
    else (some (line ++ [0] ++ buf.drop (line.length + 1)), stream.drop line.length)

/-- The C string that starts at the beginning of a buffer: the bytes before the
first NUL. -/
def cstr (buf : List Byte) : List Byte :=
  buf.takeWhile fun c => c != 0

/-- The function `strcspn(s, reject)`: the length of the initial part of the
string `s` that contains no byte of `reject`. -/
def strcspn (s reject : List Byte) : Nat :=
  (s.takeWhile fun c => c != 0 && !reject.contains c).length

/-- The function `isspace` in the C locale. -/
def isspace (c : Byte) : Bool :=
  c == 32 || (9 ≤ c && c ≤ 13)

/-- The function `isdigit`. -/
def isdigit (c : Byte) : Bool :=
  48 ≤ c && c ≤ 57

/-- The value of the decimal digits at the start of a string, continuing from
`acc`. -/
def digitsValue : List Byte → Nat → Nat
  | [], acc => acc
  | c :: cs, acc => if isdigit c then digitsValue cs (acc * 10 + (c - 48)) else acc

/-- The value of an optional sign (`-` is 45, `+` is 43) followed by decimal
digits. -/
def signedValue : List Byte → Int
  | [] => 0
  | c :: r =>
    if c = 45 then - (digitsValue r 0 : Int)
    else if c = 43 then (digitsValue r 0 : Int)
    else (digitsValue (c :: r) 0 : Int)

/-- The mathematical value `strtol(s, NULL, 10)` parses: white space, an
optional sign, decimal digits. -/
def parseDecimal (s : List Byte) : Int :=
  signedValue (s.dropWhile isspace)

/-- The function `atoi(s)`, as `(int) strtol(s, NULL, 10)` on a machine with
64-bit `long` and 32-bit `int`: the parsed value saturates to the range of
`long` and is then truncated to 32 bits. -/
def atoi (s : List Byte) : Int :=
  let v := max (-(2 ^ 63 : Int)) (min (parseDecimal s) (2 ^ 63 - 1))
  (v + 2 ^ 31) % 2 ^ 32 - 2 ^ 31

/-- The bytes of a string of ASCII characters. -/
def bytes (s : String) : List Byte :=
  s.toList.map Char.toNat

/-! ## The Wayland clients: what `alogin` and `introibo` share -/

namespace Client

/-- A registry event the server sends; the library hands it to the listener
during `wl_display_roundtrip`. -/
inductive RegistryEvent
  | global (name : Nat) (interface : String) (version : Nat)
  | global_remove (name : Nat)
  deriving DecidableEq, Repr

/-- The library and libc calls the clients make, with their arguments; `ret` is
the proxy a constructor call returned.  The `%s` arguments of `printf` are C
strings. -/
inductive Call
  | printf (fmt : String) (args : List (List Byte))
  | fprintf_stderr (fmt : String)
  | fgets (size : Nat)
  | wl_display_connect
  | wl_display_get_registry (display ret : Nat)
  | wl_registry_add_listener (registry : Nat)
  | wl_display_roundtrip (display : Nat)
  | wl_registry_bind (registry name : Nat) (interface : String) (version ret : Nat)
  | wl_compositor_create_surface (compositor ret : Nat)
  | wl_surface_destroy (surface : Nat)
  | wl_compositor_destroy (compositor : Nat)
  | wl_registry_destroy (registry : Nat)
  | wl_display_disconnect (display : Nat)
  deriving DecidableEq, Repr

/-- What the outside supplies to a client. -/
structure World where
  /-- Result of `wl_display_connect(NULL)`; `0` is `NULL`. -/
  connect : Nat
  /-- The bytes waiting on standard input. -/
  stdin : List Byte
  /-- The indeterminate initial content of a local array, by index. -/
  stack : Nat → Byte
  /-- The constant `wl_compositor_interface.name` of the protocol library. -/
  compositor_name : String
  /-- The registry events delivered during the first roundtrip. -/
  roundtrip1 : List RegistryEvent
  /-- The registry events delivered during the second roundtrip. -/
  roundtrip2 : List RegistryEvent

/-- The statics of a client, the next proxy the library hands out (constructor
calls succeed and return pairwise distinct non-null proxies), and the calls made
so far. -/
structure State where
  /-- The static `compositor`; `0` is `NULL`. -/
  compositor : Nat
  /-- The static `surface` (introibo only); `0` is `NULL`. -/
  surface : Nat
  next : Nat
  calls : List Call

/-- What a run of a client amounts to: the value `main` returns and the calls it
made. -/
structure Result where
  code : Int
  calls : List Call

/-- A local `char` array of the given size before it is written. -/
def localArray (w : World) (size : Nat) : List Byte :=
  (List.range size).map w.stack

/-- The listener `registry_global` (the same in both clients): a global whose
interface name equals that of `wl_compositor` is bound and the proxy stored in
the static `compositor`. -/
def registry_global (w : World) (registry name : Nat) (interface : String)
    (_version : Nat) (s : State) : State :=
  if interface = w.compositor_name then
    { s with compositor := s.next, next := s.next + 1,
             calls := s.calls ++
               [Call.wl_registry_bind registry name w.compositor_name 1 s.next] }
  else s

/-- The listener `registry_global_remove`: empty. -/
def registry_global_remove (_registry _name : Nat) (s : State) : State := s

/-- The table `registry_listener`: which function handles which event. -/
def registry_listener (w : World) (registry : Nat) (s : State) : RegistryEvent → State
  | .global name interface version => registry_global w registry name interface version s
  | .global_remove name => registry_global_remove registry name s

/-- The call `wl_display_roundtrip(display)` with the listener added to
`registry`: the events are handed to the listener in order. -/
def roundtrip (w : World) (display registry : Nat) (events : List RegistryEvent)
    (s : State) : State :=
  events.foldl (registry_listener w registry)
    { s with calls := s.calls ++ [Call.wl_display_roundtrip display] }

/-- Does the event announce a global whose interface name is that of
`wl_compositor`? -/
def announcesCompositor (w : World) : RegistryEvent → Bool
  | .global _ interface _ => decide (interface = w.compositor_name)
  | .global_remove _ => false

/-- Proxies returned by the constructor calls of a call sequence, in order. -/
def created : List Call → List Nat
  | [] => []
  | .wl_display_get_registry _ ret :: cs => ret :: created cs
  | .wl_registry_bind _ _ _ _ ret :: cs => ret :: created cs
  | .wl_compositor_create_surface _ ret :: cs => ret :: created cs
  | _ :: cs => created cs

/-- Proxies destroyed by a call sequence, in order. -/
def destroyed : List Call → List Nat
  | [] => []
  | .wl_surface_destroy p :: cs => p :: destroyed cs
  | .wl_compositor_destroy p :: cs => p :: destroyed cs
  | .wl_registry_destroy p :: cs => p :: destroyed cs
  | _ :: cs => destroyed cs

end Client

/-! ## alogin (`src/alogin/main.c`) -/

namespace Alogin

open Client

/-- Lines 25-29. -/
def banner : List Call :=
  [Call.printf "\n" [],
   Call.printf "╔════════════════════════════════════════╗\n" [],
   Call.printf "║      ALOGIN - ALinux Login Manager     ║\n" [],
   Call.printf "╚════════════════════════════════════════╝\n" [],
   Call.printf "\n" []]

/-- The calls of text mode up to and including the `fgets` (lines 31-38). -/
def textCalls : List Call :=
  banner ++
  [Call.wl_display_connect,
   Call.fprintf_stderr "[alogin] Wayland display not available\n",
   Call.printf "[alogin] Running in text mode...\n\n" [],
   Call.printf "Username: " [],
   Call.fgets 256]

/-- The format of line 40. -/
def welcomeFmt : String := "Welcome to ALinux, %s!\n\n"

/-- The function `main` (lines 24-55). -/
def main (w : World) : Result :=
  let display := w.connect
  if display = 0 then
    let username := localArray w 256
    match (fgets username 256 w.stdin).1 with
    | some username =>
      let username := username.set (strcspn username [10]) 0
      { code := 0, calls := textCalls ++ [Call.printf welcomeFmt [cstr username]] }
    | none => { code := 0, calls := textCalls }
  else
    let s0 : State :=
      { compositor := 0, surface := 0, next := display + 1,
        calls := banner ++ [Call.wl_display_connect] }
    let registry := s0.next
    let s1 : State :=
      { s0 with next := s0.next + 1,
                calls := s0.calls ++ [Call.wl_display_get_registry display registry,
                                      Call.wl_registry_add_listener registry] }
    let s2 := roundtrip w display registry w.roundtrip1 s1
    { code := 0,
      calls := s2.calls ++
        [Call.printf "[alogin] Login manager initialized with Wayland\n" [],
         Call.printf "[alogin] Graphical login coming soon...\n" [],
         Call.wl_registry_destroy registry,
         Call.wl_display_disconnect display] }

end Alogin

/-! ## introibo (`src/introibo/main.c`) -/

namespace Introibo

open Client

/-- Lines 26-31. -/
def banner : List Call :=
  [Call.printf "\n" [],
   Call.printf "╔════════════════════════════════════════╗\n" [],
   Call.printf "║     INTROIBO - ALinux Installer        ║\n" [],
   Call.printf "║    Powered by Azul Graphics System     ║\n" [],
   Call.printf "╚════════════════════════════════════════╝\n" [],
   Call.printf "\n" []]

/-- The calls of text mode up to and including the `fgets` (lines 33-46). -/
def textCalls : List Call :=
  banner ++
  [Call.wl_display_connect,
   Call.fprintf_stderr "[introibo] Wayland display not available\n",
   Call.printf "[introibo] Running in text mode...\n\n" [],
   Call.printf "Installation Options:\n" [],
   Call.printf "  1. Install ALinux to disk\n" [],
   Call.printf "  2. Live session (no installation)\n" [],
   Call.printf "  3. Configure system settings\n" [],
   Call.printf "  4. Exit\n\n" [],
   Call.printf "Select option (1-4): " [],
   Call.fgets 10]

/-- The message of `case 1` (line 50). -/
def diskMessage : String := "\n[introibo] Disk installation not yet implemented\n"

/-- The message of `case 2` (line 53). -/
def liveMessage : String := "\n[introibo] Starting live session...\n"

/-- The message of `case 3` (line 56). -/
def configMessage : String := "\n[introibo] System configuration not yet implemented\n"

/-- The message of `default` (line 59). -/
def exitMessage : String := "\n[introibo] Exiting installer\n"

/-- The `switch` of lines 48-60: the message printed for a choice. -/
def menuMessage (choice : Int) : String :=
  if choice = 1 then diskMessage
  else if choice = 2 then liveMessage
  else if choice = 3 then configMessage
  else exitMessage

/-- Is the call the printing of one of the four menu messages? -/
def isMenuMessage : Call → Bool
  | .printf fmt _ =>
    fmt == diskMessage || fmt == liveMessage || fmt == configMessage || fmt == exitMessage
  | _ => false

/-- A server that announces two globals of the compositor interface. -/
def twoCompositors : World :=
  { connect := 1, stdin := [], stack := fun _ => 0, compositor_name := "wl_compositor",
    roundtrip1 := [RegistryEvent.global 1 "wl_compositor" 4,
                   RegistryEvent.global 2 "wl_compositor" 4],
    roundtrip2 := [] }

/-- Lines 65-66 after a successful connect: the registry proxy is obtained and
the listener added to it. -/
def getRegistry (w : World) : State :=
  let display := w.connect
  let s0 : State :=
    { compositor := 0, surface := 0, next := display + 1,
      calls := banner ++ [Call.wl_display_connect] }
  let registry := s0.next
  { s0 with next := s0.next + 1,
            calls := s0.calls ++ [Call.wl_display_get_registry display registry,
                                  Call.wl_registry_add_listener registry] }

/-- Lines 69-74: with a compositor, a surface is created. -/
def createSurface (s : State) : State :=
  if s.compositor ≠ 0 then
    { s with surface := s.next, next := s.next + 1,
             calls := s.calls ++
               [Call.wl_compositor_create_surface s.compositor s.next,
                Call.printf "[introibo] Wayland compositor connected\n" [],
                Call.printf "[introibo] Graphical installer ready\n" [],
                Call.printf "[introibo] GUI features coming soon...\n" []] }
  else s

/-- Lines 78-79: the surface and the compositor held in the statics are
destroyed. -/
def destroyObjects (s : State) : State :=
  let s1 : State :=
    if s.surface ≠ 0 then
      { s with calls := s.calls ++ [Call.wl_surface_destroy s.surface] }
    else s
  if s1.compositor ≠ 0 then
    { s1 with calls := s1.calls ++ [Call.wl_compositor_destroy s1.compositor] }
  else s1

/-- The function `main` (lines 25-84). -/
def main (w : World) : Result :=
  let display := w.connect
  if display = 0 then
    let input := localArray w 10
    match (fgets input 10 w.stdin).1 with
    | some input =>
      let choice := atoi input
      { code := 0, calls := textCalls ++ [Call.printf (menuMessage choice) []] }
    | none => { code := 0, calls := textCalls }
  else
    let registry := display + 1
    let s1 := getRegistry w
    let s2 := roundtrip w display registry w.roundtrip1 s1
    let s3 := createSurface s2
    let s4 := roundtrip w display registry w.roundtrip2 s3
    let s5 := destroyObjects s4
    { code := 0,
      calls := s5.calls ++
        [Call.wl_registry_destroy registry, Call.wl_display_disconnect display] }

end Introibo

namespace Acomp

/-! ### The invariant -/

theorem inv_init (w : World) (e0 : Env) : Inv w e0 (init e0) := by
  simp [Inv, init]

theorem inv_step (w : World) (e0 : Env) (s : State) (h : Inv w e0 s) :
    Inv w e0 (step w s) := by
  obtain ⟨pc, d, r, so, hs, env, calls⟩ := s
  cases pc <;> simp only [Inv, step, Ready] at h ⊢
  case l21 => simp_all
  case l22 => simp_all
  case l24 => by_cases hc : w.create = 0 <;> simp_all
  case l30 =>
    obtain ⟨h1, h2, h3, h4, h5⟩ := h
    cases hw : w.socket <;> simp_all
  case l39 =>
    obtain ⟨h1, h2, h3, h4, h5, h6, h7⟩ := h
    subst h5
    cases hw : w.socket with
    | none => exact absurd hw h6
    | some nm => exact ⟨nm, 0, by simp_all, by simp_all [setup, ticks]⟩
  case l44 =>
    obtain ⟨nm, n, h1, h2⟩ := h
    cases r
    · exact ⟨nm, n, h1, by simp, h2⟩
    · exact ⟨nm, n, h1, h2⟩
  case l45 =>
    obtain ⟨nm, n, ⟨h1, h2, h3, h4⟩, h5⟩ := h
    exact ⟨nm, n, ⟨h1, h2, h3, h4⟩, by simp_all⟩
  case l46 =>
    obtain ⟨nm, n, ⟨h1, h2, h3, h4⟩, h5⟩ := h
    exact ⟨nm, n + 1, ⟨h1, h2, h3, h4⟩, by simp_all [ticks, tick]⟩
  case l50 =>
    obtain ⟨nm, n, ⟨h1, h2, h3, h4⟩, h5, h6⟩ := h
    exact Or.inr (Or.inr ⟨trivial, nm, n, ⟨h1, h2, h3, h4⟩, h5, by simp_all⟩)
  case exited c => exact h
  case killed c => exact h

theorem sig_mem_handlers (sig : Sig) : sig.num ∈ [SIGTERM, SIGINT] := by
  cases sig <;> simp [Sig.num]

theorem inv_deliver (w : World) (e0 : Env) (sig : Sig) (s : State) (h : Inv w e0 s) :
    Inv w e0 (deliver sig s) := by
  obtain ⟨pc, d, r, so, hs, env, calls⟩ := s
  cases pc <;> simp only [deliver, handle_signal]
  case l50 =>
    by_cases hm : sig.num ∈ hs <;> simp only [hm, if_true, if_false]
    · simp only [Inv, Ready] at h ⊢
      obtain ⟨nm, n, h1, _, h3⟩ := h
      exact ⟨nm, n, h1, trivial, h3⟩
    · simp only [Inv, Ready] at h
      obtain ⟨nm, n, h1, _, h3⟩ := h
      exact absurd (h1.1 ▸ sig_mem_handlers sig) hm
  all_goals first
    | exact h
    | (by_cases hm : sig.num ∈ hs <;> simp only [hm, if_true, if_false] <;>
        first
          | exact h
          | (simp only [Inv, Ready] at h
             obtain ⟨rfl, _⟩ := h
             exact absurd (sig_mem_handlers sig) hm)
          | (simp only [Inv, Ready] at h
             obtain ⟨_, _, ⟨rfl, _⟩, _⟩ := h
             exact absurd (sig_mem_handlers sig) hm)
          | (simp only [Inv] at h ⊢
             simp_all [SIGINT, SIGTERM]))

theorem inv_exec (w : World) (e0 : Env) (evs : List Event) :
    ∀ s, Inv w e0 s → Inv w e0 (exec w evs s) := by
  induction evs with
  | nil => intro s h; exact h
  | cons e es ih =>
    intro s h
    cases e with
    | step => exact ih _ (inv_step w e0 s h)
    | signal sig => exact ih _ (inv_deliver w e0 sig s h)

/-- Every state the process reaches satisfies the invariant. -/
theorem inv_reach (w : World) (e0 : Env) (evs : List Event) :
    Inv w e0 (exec w evs (init e0)) :=
  inv_exec w e0 evs _ (inv_init w e0)

/-! ### `running` only ever goes from true to false -/

theorem step_running (w : World) (s : State) : (step w s).running = s.running := by
  obtain ⟨pc, d, r, so, hs, env, calls⟩ := s
  cases pc <;> simp only [step]
  case l24 => split <;> rfl
  case l30 => split <;> rfl
  case l39 => split <;> rfl
  case l44 => split <;> rfl

theorem deliver_running (sig : Sig) (s : State) (h : s.running = false) :
    (deliver sig s).running = false := by
  obtain ⟨pc, d, r, so, hs, env, calls⟩ := s
  cases pc <;> simp only [deliver, handle_signal] <;> first | exact h | (split <;> first | rfl | exact h)

theorem exec_running (w : World) (evs : List Event) :
    ∀ s, s.running = false → (exec w evs s).running = false := by
  induction evs with
  | nil => intro s h; exact h
  | cons e es ih =>
    intro s h
    cases e with
    | step => exact ih _ ((step_running w s).trans h)
    | signal sig => exact ih _ (deliver_running sig s h)

/-! ### Termination -/

theorem exec_cons (w : World) (e : Event) (es : List Event) (s : State) :
    exec w (e :: es) s = exec w es (apply w s e) := rfl

theorem exec_append (w : World) (es1 es2 : List Event) (s : State) :
    exec w (es1 ++ es2) s = exec w es2 (exec w es1 s) := by
  simp [exec, List.foldl_append]

theorem steps_cons_step (es : List Event) : steps (Event.step :: es) = steps es + 1 := by
  simp [steps]

theorem steps_cons_signal (sig : Sig) (es : List Event) :
    steps (Event.signal sig :: es) = steps es := by
  simp [steps]

theorem armed_step (w : World) (s : State) (h : s.pc.armed = true) :
    (step w s).pc.armed = true := by
  obtain ⟨pc, d, r, so, hs, env, calls⟩ := s
  cases pc <;> simp only [step] <;> first | exact h | rfl | (split <;> rfl)

theorem deliver_pc (w : World) (e0 : Env) (sig : Sig) (s : State) (h : Inv w e0 s)
    (ha : s.pc.armed = true) : (deliver sig s).pc = s.pc := by
  obtain ⟨pc, d, r, so, hs, env, calls⟩ := s
  cases pc <;> simp only [deliver, handle_signal] <;> first
    | rfl
    | (simp [Pc.armed] at ha; done)
    | (simp only [Inv, Ready] at h
       obtain ⟨rfl, _⟩ := h
       simp [sig_mem_handlers sig])
    | (simp only [Inv, Ready] at h
       obtain ⟨_, _, ⟨rfl, _⟩, _⟩ := h
       simp [sig_mem_handlers sig])

theorem deliver_stops (w : World) (e0 : Env) (sig : Sig) (s : State) (h : Inv w e0 s)
    (ha : s.pc.armed = true) :
    (deliver sig s).running = false ∨ ∃ c, s.pc = .exited c := by
  obtain ⟨pc, d, r, so, hs, env, calls⟩ := s
  cases pc <;> simp only [deliver, handle_signal] <;> first
    | exact Or.inr ⟨_, rfl⟩
    | (simp [Pc.armed] at ha; done)
    | (simp only [Inv, Ready] at h
       obtain ⟨rfl, _⟩ := h
       simp [sig_mem_handlers sig])
    | (simp only [Inv, Ready] at h
       obtain ⟨_, _, ⟨rfl, _⟩, _⟩ := h
       simp [sig_mem_handlers sig])

/-- Once `running` is false or start-up has failed, every statement brings
`main` nearer to its return. -/
theorem remaining_step (w : World) (e0 : Env) (s : State) (h : Inv w e0 s)
    (hstop : s.running = false ∨ w.failed) (ha : s.pc.armed = true) :
    remaining w (step w s).pc ≤ remaining w s.pc - 1 := by
  obtain ⟨pc, d, r, so, hs, env, calls⟩ := s
  cases pc <;> simp only [step, remaining]
  case l21 => simp [Pc.armed] at ha
  case l22 => simp [Pc.armed] at ha
  case l24 =>
    by_cases hc : w.create = 0
    · simp [hc, remaining]
    · cases hw : w.socket <;> simp [hc, remaining]
  case l30 => cases hw : w.socket <;> simp [remaining]
  case l39 =>
    simp only [Inv] at h
    obtain ⟨_, _, _, _, h5, h6, _⟩ := h
    subst h5
    cases hw : w.socket with
    | none => exact absurd hw h6
    | some nm => simp
  case l44 =>
    simp only [Inv, Ready] at h
    obtain ⟨nm, n, ⟨_, h2, _, h4, _⟩, _⟩ := h
    rcases hstop with hr | hf
    · subst hr
      simp [remaining]
    · rcases hf with hf | hf
      · exact absurd hf h2
      · rw [h4] at hf; exact absurd hf (by simp)
  all_goals simp [remaining]

theorem countdown (w : World) (e0 : Env) (evs : List Event) :
    ∀ s, Inv w e0 s → (s.running = false ∨ w.failed) → s.pc.armed = true →
      remaining w s.pc ≤ steps evs → ∃ c, (exec w evs s).pc = .exited c := by
  induction evs with
  | nil =>
    intro s _ _ ha hr
    obtain ⟨pc, d, r, so, hs, env, calls⟩ := s
    cases pc <;> simp [remaining, steps, Pc.armed, exec] at hr ha ⊢
    all_goals (split_ifs at hr)
  | cons e es ih =>
    intro s h hstop ha hr
    cases e with
    | step =>
      rw [steps_cons_step] at hr
      rw [exec_cons]
      refine ih _ (inv_step w e0 s h) ?_ (armed_step w s ha) ?_
      · rcases hstop with hr0 | hf
        · exact Or.inl ((step_running w s).trans hr0)
        · exact Or.inr hf
      · have := remaining_step w e0 s h hstop ha
        simp only [apply]
        omega
    | signal sig =>
      rw [steps_cons_signal] at hr
      rw [exec_cons]
      refine ih _ (inv_deliver w e0 sig s h) ?_ ?_ ?_
      · rcases hstop with hr0 | hf
        · exact Or.inl (deliver_running sig s hr0)
        · exact Or.inr hf
      · simp only [apply]; rw [deliver_pc w e0 sig s h ha]; exact ha
      · simp only [apply]; rw [deliver_pc w e0 sig s h ha]; exact hr

/-- The return code tells whether start-up failed. -/
theorem exit_code (w : World) (e0 : Env) (s : State) (h : Inv w e0 s) (c : Int)
    (hc : s.pc = .exited c) :
    (c = 1 ∧ w.failed) ∨ (c = 0 ∧ ¬ w.failed ∧ s.running = false) := by
  obtain ⟨pc, d, r, so, hs, env, calls⟩ := s
  simp only at hc
  subst hc
  simp only [Inv, Ready] at h
  rcases h with ⟨h1, _, h3, _⟩ | ⟨h1, _, _, h4, _⟩ | ⟨h1, nm, n, ⟨_, h2, _, h4, _⟩, h5, _⟩
  · exact Or.inl ⟨h1, Or.inl h3⟩
  · exact Or.inl ⟨h1, Or.inr h4⟩
  · refine Or.inr ⟨h1, ?_, h5⟩
    rintro (hf | hf)
    · exact h2 hf
    · rw [h4] at hf; exact absurd hf (by simp)

theorem armed_exec (w : World) (e0 : Env) (evs : List Event) :
    ∀ s, Inv w e0 s → s.pc.armed = true → (exec w evs s).pc.armed = true := by
  induction evs with
  | nil => intro s _ ha; exact ha
  | cons e es ih =>
    intro s h ha
    cases e with
    | step => exact ih _ (inv_step w e0 s h) (armed_step w s ha)
    | signal sig =>
      refine ih _ (inv_deliver w e0 sig s h) ?_
      simp only [apply]; rw [deliver_pc w e0 sig s h ha]; exact ha

theorem exec_exited (w : World) (evs : List Event) :
    ∀ s c, s.pc = .exited c → exec w evs s = s := by
  induction evs with
  | nil => intro s c _; rfl
  | cons e es ih =>
    intro s c hc
    have h1 : apply w s e = s := by
      obtain ⟨pc, d, r, so, hs, env, calls⟩ := s
      simp only at hc
      subst hc
      cases e <;> rfl
    rw [exec_cons, h1]
    exact ih s c hc

/-- When start-up fails `main` returns 1. -/
theorem returns_failed (w : World) (e0 : Env) (evs : List Event) (s : State)
    (h : Inv w e0 s) (hf : w.failed) (ha : s.pc.armed = true)
    (hr : remaining w s.pc ≤ steps evs) : (exec w evs s).pc = .exited 1 := by
  obtain ⟨c, hc⟩ := countdown w e0 evs s h (Or.inr hf) ha hr
  rcases exit_code w e0 _ (inv_exec w e0 evs s h) c hc with ⟨h1, _⟩ | ⟨_, h2, _⟩
  · rw [hc, h1]
  · exact absurd hf h2

/-- When start-up succeeds and `running` is false `main` returns 0. -/
theorem returns_stopped (w : World) (e0 : Env) (evs : List Event) (s : State)
    (h : Inv w e0 s) (hnf : ¬ w.failed) (hrun : s.running = false)
    (ha : s.pc.armed = true) (hr : remaining w s.pc ≤ steps evs) :
    (exec w evs s).pc = .exited 0 := by
  obtain ⟨c, hc⟩ := countdown w e0 evs s h (Or.inl hrun) ha hr
  rcases exit_code w e0 _ (inv_exec w e0 evs s h) c hc with ⟨_, h2⟩ | ⟨h1, _, _⟩
  · exact absurd h2 hnf
  · rw [hc, h1]

theorem remaining_le (w : World) (s : State) (ha : s.pc.armed = true) :
    remaining w s.pc ≤ 5 := by
  obtain ⟨pc, d, r, so, hs, env, calls⟩ := s
  cases pc <;> simp only [remaining] <;> first
    | (simp [Pc.armed] at ha; done)
    | (split_ifs <;> omega)
    | omega

theorem remaining_failed (w : World) (s : State) (hf : w.failed) (hpc : s.pc = .l24) :
    remaining w s.pc ≤ 2 := by
  rw [hpc]
  simp only [remaining]
  rcases hf with hf | hf <;> split_ifs <;> omega

theorem two_steps_pc (w : World) (e0 : Env) :
    (exec w [Event.step, Event.step] (init e0)).pc = .l24 := rfl

/-- A signal that arrives once both handlers are installed leads to `main`
returning 0, provided start-up succeeds. -/
theorem returns_after_signal (w : World) (e0 : Env) (s : State) (h : Inv w e0 s)
    (ha : s.pc.armed = true) (hnf : ¬ w.failed) (sig : Sig) (evs : List Event)
    (hr : 5 ≤ steps evs) : (exec w evs (deliver sig s)).pc = .exited 0 := by
  have hd := inv_deliver w e0 sig s h
  have hpc := deliver_pc w e0 sig s h ha
  rcases deliver_stops w e0 sig s h ha with hrun | ⟨c, hc⟩
  · refine returns_stopped w e0 evs _ hd hnf hrun (by rw [hpc]; exact ha) ?_
    have := remaining_le w (deliver sig s) (by rw [hpc]; exact ha)
    omega
  · have hc2 : (deliver sig s).pc = .exited c := by rw [hpc]; exact hc
    rw [exec_exited w evs _ c hc2]
    rcases exit_code w e0 _ hd c hc2 with ⟨_, h2⟩ | ⟨h1, _, _⟩
    · exact absurd h2 hnf
    · rw [hc2, h1]

/-! ### Runs with a given number of iterations -/

theorem run_setup (w : World) (e0 : Env) (nm : String) (hc : w.create ≠ 0)
    (hs : w.socket = some nm) :
    exec w (List.replicate 5 Event.step) (init e0) =
      { pc := .l44, display := w.create, running := true, socket := some nm,
        handlers := [SIGTERM, SIGINT], env := setenv e0 "WAYLAND_DISPLAY" nm 1,
        calls := setup w.create nm } := by
  simp [exec, apply, step, init, List.replicate, hc, hs, setup]

theorem run_tick (w : World) (d : Nat) (so : Option String) (hs : List Int) (env : Env)
    (calls : List Call) :
    exec w (List.replicate 3 Event.step)
        { pc := .l44, display := d, running := true, socket := so, handlers := hs,
          env := env, calls := calls } =
      { pc := .l44, display := d, running := true, socket := so, handlers := hs,
        env := env, calls := calls ++ tick d } := by
  simp [exec, apply, step, List.replicate, tick]

theorem run_ticks (w : World) (d : Nat) (so : Option String) (hs : List Int) (env : Env)
    (n : Nat) : ∀ calls : List Call,
    exec w (List.replicate (3 * n) Event.step)
        { pc := .l44, display := d, running := true, socket := so, handlers := hs,
          env := env, calls := calls } =
      { pc := .l44, display := d, running := true, socket := so, handlers := hs,
        env := env, calls := calls ++ ticks d n } := by
  induction n with
  | zero => intro calls; simp [exec, ticks]
  | succ k ih =>
    intro calls
    have h3 : 3 * (k + 1) = 3 * k + 3 := by ring
    rw [h3, List.replicate_add, exec_append, ih, run_tick]
    simp [ticks]

theorem run_schedule (w : World) (e0 : Env) (nm : String) (hc : w.create ≠ 0)
    (hs : w.socket = some nm) (n : Nat) (sig : Sig) :
    exec w (schedule n sig) (init e0) =
      { pc := .exited 0, display := w.create, running := false, socket := some nm,
        handlers := [SIGTERM, SIGINT], env := setenv e0 "WAYLAND_DISPLAY" nm 1,
        calls := setup w.create nm ++ ticks w.create n ++ [Call.wl_display_destroy w.create] } := by
  unfold schedule
  rw [List.replicate_add, exec_append, exec_append, run_setup w e0 nm hc hs, run_ticks]
  have hm : sig.num ∈ [SIGTERM, SIGINT] := sig_mem_handlers sig
  simp [exec, apply, step, deliver, handle_signal, hm]

/-! ### The shape of the call sequence -/

theorem ready_not_failed (w : World) (e0 : Env) (nm : String) (s : State)
    (h : Ready w e0 nm s) : ¬ w.failed := by
  obtain ⟨_, h2, _, h4, _⟩ := h
  rintro (hf | hf)
  · exact h2 hf
  · rw [h4] at hf; exact absurd hf (by simp)

/-- In a run whose start-up fails no loop action is ever called and the
environment is never modified. -/
theorem failed_quiet (w : World) (e0 : Env) (s : State) (h : Inv w e0 s) (hf : w.failed) :
    s.env = e0 ∧ ∀ x ∈ s.calls, x.isLoopAction = false := by
  obtain ⟨pc, d, r, so, hs, env, calls⟩ := s
  cases pc <;> simp only [Inv] at h
  case l21 => obtain ⟨_, h2, h3⟩ := h; subst h3; exact ⟨h2, by simp⟩
  case l22 => obtain ⟨_, h2, h3⟩ := h; subst h3; exact ⟨h2, by simp [Call.isLoopAction]⟩
  case l24 => obtain ⟨_, h2, h3⟩ := h; subst h3; exact ⟨h2, by simp [Call.isLoopAction]⟩
  case l30 => obtain ⟨_, h2, _, _, h3⟩ := h; subst h3; exact ⟨h2, by simp [Call.isLoopAction]⟩
  case l39 =>
    obtain ⟨_, h2, _, _, _, _, h3⟩ := h; subst h3; exact ⟨h2, by simp [Call.isLoopAction]⟩
  case l44 => obtain ⟨nm, n, h1, _⟩ := h; exact absurd hf (ready_not_failed w e0 nm _ h1)
  case l45 => obtain ⟨nm, n, h1, _⟩ := h; exact absurd hf (ready_not_failed w e0 nm _ h1)
  case l46 => obtain ⟨nm, n, h1, _⟩ := h; exact absurd hf (ready_not_failed w e0 nm _ h1)
  case l50 => obtain ⟨nm, n, h1, _⟩ := h; exact absurd hf (ready_not_failed w e0 nm _ h1)
  case exited c =>
    rcases h with ⟨_, h2, _, h3⟩ | ⟨_, h2, _, _, h3⟩ | ⟨_, nm, n, h1, _⟩
    · subst h3; exact ⟨h2, by simp [Call.isLoopAction]⟩
    · subst h3; exact ⟨h2, by simp [Call.isLoopAction]⟩
    · exact absurd hf (ready_not_failed w e0 nm _ h1)
  case killed c =>
    obtain ⟨h2, _, h3 | h3⟩ := h
    · subst h3; exact ⟨h2, by simp⟩
    · subst h3; exact ⟨h2, by simp [Call.isLoopAction]⟩

theorem dispatch_count_ticks (d n : Nat) :
    ((ticks d n).filter Call.isDispatch).length = n := by
  induction n with
  | zero => rfl
  | succ k ih => simp [ticks, tick, Call.isDispatch, List.filter_append, ih]

theorem dispatch_count_setup (d : Nat) (nm : String) :
    (setup d nm).filter Call.isDispatch = [] := by
  simp [setup, Call.isDispatch]

/-! ### Exit code (C1) -/

/-- C1: the exit code of `acomp` separates start-up failure from graceful
shutdown.  For every outcome of `wl_display_create` and
`wl_display_add_socket_auto` and every schedule: when `main` returns `c`, `c` is
non-zero exactly when start-up failed, a non-zero code is 1, after a failed
start-up no loop action has been called, and a return of 0 finds `running`
false; a failed start-up does return 1 (two statements after the handlers are
installed); a successful one returns 0 after a signal; and every number `n` of
loop iterations occurs in a run that returns 0. -/
theorem acomp_exit_code (w : World) (e0 : Env) :
    (∀ evs c, (exec w evs (init e0)).pc = .exited c →
      (c ≠ 0 ↔ w.failed) ∧ (c ≠ 0 → c = 1) ∧
      (w.failed → ∀ x ∈ (exec w evs (init e0)).calls, x.isLoopAction = false) ∧
      (c = 0 → (exec w evs (init e0)).running = false)) ∧
    (w.failed → ∀ evs, 2 ≤ steps evs →
      (exec w (Event.step :: Event.step :: evs) (init e0)).pc = .exited 1) ∧
    (¬ w.failed → ∀ evs1 sig evs2, 5 ≤ steps evs2 →
      (exec w (Event.step :: Event.step :: (evs1 ++ Event.signal sig :: evs2)) (init e0)).pc
        = .exited 0) ∧
    (¬ w.failed → ∀ n sig, (exec w (schedule n sig) (init e0)).pc = .exited 0 ∧
      ((exec w (schedule n sig) (init e0)).calls.filter Call.isDispatch).length = n) := by
  refine ⟨?_, ?_, ?_, ?_⟩
  · intro evs c hc
    have hinv := inv_reach w e0 evs
    rcases exit_code w e0 _ hinv c hc with ⟨h1, h2⟩ | ⟨h1, h2, h3⟩
    · subst h1
      exact ⟨⟨fun _ => h2, fun _ => by decide⟩, fun _ => rfl,
        fun hf => (failed_quiet w e0 _ hinv hf).2, fun h0 => absurd h0 (by decide)⟩
    · subst h1
      exact ⟨⟨fun h => absurd rfl h, fun hf => absurd hf h2⟩, fun h => absurd rfl h,
        fun hf => absurd hf h2, fun _ => h3⟩
  · intro hf evs hsteps
    have h2 : Inv w e0 (exec w [Event.step, Event.step] (init e0)) := inv_reach w e0 _
    have hrem := remaining_failed w _ hf (two_steps_pc w e0)
    exact returns_failed w e0 evs _ h2 hf rfl (Nat.le_trans hrem hsteps)
  · intro hnf evs1 sig evs2 hsteps
    have hE : Event.step :: Event.step :: (evs1 ++ Event.signal sig :: evs2)
        = ([Event.step, Event.step] ++ evs1) ++ (Event.signal sig :: evs2) := by simp
    rw [hE, exec_append, exec_cons]
    have hinv : Inv w e0 (exec w ([Event.step, Event.step] ++ evs1) (init e0)) :=
      inv_reach w e0 _
    have harm : (exec w ([Event.step, Event.step] ++ evs1) (init e0)).pc.armed = true := by
      rw [exec_append]
      exact armed_exec w e0 evs1 _ (inv_reach w e0 _) rfl
    exact returns_after_signal w e0 _ hinv harm hnf sig evs2 hsteps
  · intro hnf n sig
    have hc : w.create ≠ 0 := fun h => hnf (Or.inl h)
    cases hs : w.socket with
    | none => exact absurd (Or.inr hs) hnf
    | some nm =>
      rw [run_schedule w e0 nm hc hs n sig]
      refine ⟨rfl, ?_⟩
      simp [List.filter_append, dispatch_count_ticks, dispatch_count_setup, Call.isDispatch]

/-- C1 at a world whose socket cannot be bound and at one that starts up. -/
theorem acomp_exit_code_witness :
    (exec ⟨1, none⟩ [Event.step, Event.step, Event.step, Event.step]
        (init fun _ => none)).pc = .exited 1 ∧
    (exec ⟨1, some "wayland-0"⟩ (schedule 2 Sig.sigint) (init fun _ => none)).pc = .exited 0 :=
  ⟨(acomp_exit_code ⟨1, none⟩ (fun _ => none)).2.1 (Or.inr rfl)
      [Event.step, Event.step] (by decide),
   ((acomp_exit_code ⟨1, some "wayland-0"⟩ (fun _ => none)).2.2.2
      (by decide) 2 Sig.sigint).1⟩

/-! ### Shutdown on a signal (C2) -/

theorem deliver_calls (sig : Sig) (s : State) : (deliver sig s).calls = s.calls := by
  obtain ⟨pc, d, r, so, hs, env, calls⟩ := s
  cases pc <;> simp only [deliver, handle_signal] <;> first | rfl | (split <;> rfl)

theorem armed_of_handlers (w : World) (e0 : Env) (s : State) (h : Inv w e0 s)
    (hterm : SIGTERM ∈ s.handlers) : s.pc.armed = true := by
  obtain ⟨pc, d, r, so, hs, env, calls⟩ := s
  cases pc <;> simp only [Inv] at h <;> first
    | rfl
    | (obtain ⟨h1, _⟩ := h
       simp only at hterm
       rw [h1] at hterm
       simp [SIGINT, SIGTERM] at hterm)
    | (obtain ⟨_, h1, _⟩ := h
       exact absurd hterm h1)

theorem begun_step (w : World) (s : State) (hrun : s.running = false) :
    iterationsBegun (step w s) = iterationsBegun s := by
  obtain ⟨pc, d, r, so, hs, env, calls⟩ := s
  obtain ⟨wc, ws⟩ := w
  simp only at hrun
  subst hrun
  cases pc <;> simp only [step, iterationsBegun]
  case l24 => split <;> simp [List.filter_append, Call.isFlush]
  case l30 => cases ws <;> simp [List.filter_append, Call.isFlush]
  case l39 => cases so <;> simp [List.filter_append, Call.isFlush]
  all_goals simp [List.filter_append, Call.isFlush]

theorem begun_exec (w : World) (e0 : Env) (evs : List Event) :
    ∀ s, Inv w e0 s → s.pc.armed = true → s.running = false →
      iterationsBegun (exec w evs s) = iterationsBegun s := by
  induction evs with
  | nil => intro s _ _ _; rfl
  | cons e es ih =>
    intro s h ha hrun
    cases e with
    | step =>
      rw [exec_cons]
      simp only [apply]
      rw [ih _ (inv_step w e0 s h) (armed_step w s ha) ((step_running w s).trans hrun)]
      exact begun_step w s hrun
    | signal sig =>
      have hpc := deliver_pc w e0 sig s h ha
      rw [exec_cons]
      simp only [apply]
      rw [ih _ (inv_deliver w e0 sig s h) (by rw [hpc]; exact ha) (deliver_running sig s hrun)]
      simp only [iterationsBegun, hpc, deliver_calls]

/-- C2: SIGINT and SIGTERM both request graceful shutdown, and the request is
final.  Let `s` be a state of a run in which both handlers are installed and
`main` has not returned, and let either signal be delivered there.  Then the
handler runs and sets `running` to false (as it does for every signal number);
`running` stays false under every later statement and signal; whenever the loop
condition (line 44) is evaluated afterwards it fails: control goes to line 50
without a call, then `wl_display_destroy` is called and `main` returns 0; and when
start-up succeeds this does happen within five statements, no iteration being
begun after the signal (the flush calls are those already made, plus the one of
an iteration entered before the signal). -/
theorem acomp_signal_stops (w : World) (e0 : Env) (evs : List Event) (sig : Sig)
    (s : State) (hs : s = exec w evs (init e0))
    (hint : SIGINT ∈ s.handlers) (hterm : SIGTERM ∈ s.handlers)
    (halive : ∀ c, s.pc ≠ .exited c) :
    deliver sig s = handle_signal sig.num s ∧
    (∀ k : Int, (handle_signal k s).running = false) ∧
    (∀ evs2, (exec w evs2 (deliver sig s)).running = false) ∧
    (∀ evs2 t, t = exec w evs2 (deliver sig s) → t.pc = .l44 →
      (step w t).pc = .l50 ∧ (step w t).calls = t.calls ∧
      (step w (step w t)).pc = .exited 0 ∧
      (step w (step w t)).calls = t.calls ++ [Call.wl_display_destroy w.create]) ∧
    (¬ w.failed → ∀ evs2, 5 ≤ steps evs2 →
      (exec w evs2 (deliver sig s)).pc = .exited 0 ∧
      ((exec w evs2 (deliver sig s)).calls.filter Call.isFlush).length =
        iterationsBegun s) := by
  have hinv : Inv w e0 s := hs ▸ inv_reach w e0 evs
  have harm := armed_of_handlers w e0 s hinv hterm
  have hpc := deliver_pc w e0 sig s hinv harm
  have hrun : (deliver sig s).running = false := by
    rcases deliver_stops w e0 sig s hinv harm with h | ⟨c, hc⟩
    · exact h
    · exact absurd hc (halive c)
  have hdinv := inv_deliver w e0 sig s hinv
  have hdarm : (deliver sig s).pc.armed = true := by rw [hpc]; exact harm
  refine ⟨?_, fun k => rfl, fun evs2 => exec_running w evs2 _ hrun, ?_, ?_⟩
  · obtain ⟨pc, d, r, so, hh, env, calls⟩ := s
    have hmem : sig.num ∈ hh := by
      cases sig
      · exact hint
      · exact hterm
    cases pc <;> simp only [deliver, hmem, if_true]
    · exact absurd rfl (halive _)
    · simp [Pc.armed] at harm
  · intro evs2 t ht htpc
    have htinv : Inv w e0 t := ht ▸ inv_exec w e0 evs2 _ hdinv
    have htrun : t.running = false := ht ▸ exec_running w evs2 _ hrun
    obtain ⟨pc, d, r, so, hh, env, calls⟩ := t
    simp only at htpc htrun
    subst htpc htrun
    simp only [Inv, Ready] at htinv
    obtain ⟨nm, n, ⟨_, _, h3, _⟩, _⟩ := htinv
    simp [step, h3]
  · intro hnf evs2 hsteps
    have hfin := returns_after_signal w e0 s hinv harm hnf sig evs2 hsteps
    refine ⟨hfin, ?_⟩
    have hb := begun_exec w e0 evs2 _ hdinv hdarm hrun
    simp only [iterationsBegun, hfin, hpc, deliver_calls] at hb
    simpa [iterationsBegun] using hb

/-- C2 at SIGTERM arriving in the middle of the first iteration. -/
theorem acomp_signal_stops_witness :
    (exec ⟨1, some "wayland-0"⟩ [Event.step, Event.step]
      (deliver Sig.sigterm
        (exec ⟨1, some "wayland-0"⟩ (List.replicate 7 Event.step) (init fun _ => none)))).pc
      = .l50 :=
  (((acomp_signal_stops ⟨1, some "wayland-0"⟩ (fun _ => none) (List.replicate 7 Event.step)
      Sig.sigterm _ rfl (by decide) (by decide) (fun _ h => Pc.noConfusion h)).2.2.2.1
      [Event.step] _ rfl (by decide)).1)

/-! ### Order of the loop actions (C3, C6, C7) -/

theorem loopActions_setup (d : Nat) (nm : String) : loopActions (setup d nm) = [] := by
  simp [loopActions, setup, Call.isLoopAction]

theorem loopActions_ticks (d n : Nat) :
    loopActions (ticks d n) = (List.replicate n (flushDispatch d)).flatten := by
  induction n with
  | zero => rfl
  | succ k ih =>
    simp only [loopActions] at ih
    simp [loopActions, ticks, tick, List.filter_append, ih, List.replicate_succ',
      flushDispatch, Call.isLoopAction]

/-- The loop actions of every reachable state: some number of complete
iterations, each a flush followed by a dispatch, and the flush of the iteration
in progress when control is at line 46. -/
theorem loop_shape (w : World) (e0 : Env) (s : State) (h : Inv w e0 s) :
    ∃ n, loopActions s.calls = (List.replicate n (flushDispatch w.create)).flatten ++
      (if s.pc = .l46 then [Call.wl_display_flush_clients w.create] else []) := by
  obtain ⟨pc, d, r, so, hs, env, calls⟩ := s
  cases pc <;> simp only [Inv] at h
  case l21 => obtain ⟨_, _, h3⟩ := h; subst h3; exact ⟨0, by simp [loopActions]⟩
  case l22 =>
    obtain ⟨_, _, h3⟩ := h; subst h3; exact ⟨0, by simp [loopActions, Call.isLoopAction]⟩
  case l24 =>
    obtain ⟨_, _, h3⟩ := h; subst h3; exact ⟨0, by simp [loopActions, Call.isLoopAction]⟩
  case l30 =>
    obtain ⟨_, _, _, _, h3⟩ := h; subst h3
    exact ⟨0, by simp [loopActions, Call.isLoopAction]⟩
  case l39 =>
    obtain ⟨_, _, _, _, _, _, h3⟩ := h; subst h3
    exact ⟨0, by simp [loopActions, Call.isLoopAction]⟩
  case l44 =>
    obtain ⟨nm, n, _, h3⟩ := h; subst h3
    refine ⟨n, ?_⟩
    have h1 := loopActions_setup w.create nm
    have h2 := loopActions_ticks w.create n
    simp only [loopActions] at h1 h2 ⊢
    simp [List.filter_append, h1, h2]
  case l45 =>
    obtain ⟨nm, n, _, h3⟩ := h; subst h3
    refine ⟨n, ?_⟩
    have h1 := loopActions_setup w.create nm
    have h2 := loopActions_ticks w.create n
    simp only [loopActions] at h1 h2 ⊢
    simp [List.filter_append, h1, h2]
  case l46 =>
    obtain ⟨nm, n, _, h3⟩ := h; subst h3
    refine ⟨n, ?_⟩
    have h1 := loopActions_setup w.create nm
    have h2 := loopActions_ticks w.create n
    simp only [loopActions] at h1 h2 ⊢
    simp [List.filter_append, h1, h2, Call.isLoopAction]
  case l50 =>
    obtain ⟨nm, n, _, _, h3⟩ := h; subst h3
    refine ⟨n, ?_⟩
    have h1 := loopActions_setup w.create nm
    have h2 := loopActions_ticks w.create n
    simp only [loopActions] at h1 h2 ⊢
    simp [List.filter_append, h1, h2]
  case exited c =>
    rcases h with ⟨_, _, _, h3⟩ | ⟨_, _, _, _, h3⟩ | ⟨_, nm, n, _, _, h3⟩
    · subst h3; exact ⟨0, by simp [loopActions, Call.isLoopAction]⟩
    · subst h3; exact ⟨0, by simp [loopActions, Call.isLoopAction]⟩
    · subst h3
      refine ⟨n, ?_⟩
      have h1 := loopActions_setup w.create nm
      have h2 := loopActions_ticks w.create n
      simp only [loopActions] at h1 h2 ⊢
      simp [List.filter_append, h1, h2, Call.isLoopAction]
  case killed c =>
    obtain ⟨_, _, h3 | h3⟩ := h
    · subst h3; exact ⟨0, by simp [loopActions]⟩
    · subst h3; exact ⟨0, by simp [loopActions, Call.isLoopAction]⟩

/-- C6, as the code has it: each iteration of the loop flushes first and polls
and dispatches second.  In every state a run reaches, the loop actions called so
far are some number `n` of repetitions of [flush, dispatch], followed by the
flush of the iteration in progress when control stands between lines 45 and 46;
at the loop condition they are exactly `n` repetitions; the first loop action
after set-up is therefore a flush; and for every `n` there is a run of exactly
`n` iterations. -/
theorem acomp_tick_order (w : World) (e0 : Env) :
    (∀ evs, ∃ n, loopActions (exec w evs (init e0)).calls =
      (List.replicate n (flushDispatch w.create)).flatten ++
        (if (exec w evs (init e0)).pc = .l46 then [Call.wl_display_flush_clients w.create]
         else [])) ∧
    (∀ evs, (exec w evs (init e0)).pc = .l44 → ∃ n, loopActions (exec w evs (init e0)).calls =
      (List.replicate n (flushDispatch w.create)).flatten) ∧
    (∀ evs c, (loopActions (exec w evs (init e0)).calls).head? = some c →
      c = Call.wl_display_flush_clients w.create) ∧
    (¬ w.failed → ∀ n sig, loopActions (exec w (schedule n sig) (init e0)).calls =
      (List.replicate n (flushDispatch w.create)).flatten) := by
  refine ⟨fun evs => loop_shape w e0 _ (inv_reach w e0 evs), ?_, ?_, ?_⟩
  · intro evs hpc
    obtain ⟨n, hn⟩ := loop_shape w e0 _ (inv_reach w e0 evs)
    exact ⟨n, by simpa [hpc] using hn⟩
  · intro evs c hc
    obtain ⟨n, hn⟩ := loop_shape w e0 _ (inv_reach w e0 evs)
    rw [hn] at hc
    cases n with
    | zero =>
      by_cases hpc : (exec w evs (init e0)).pc = .l46
      · simp [hpc] at hc; exact hc.symm
      · simp [hpc] at hc
    | succ k =>
      simp [List.replicate_succ, flushDispatch] at hc
      exact hc.symm
  · intro hnf n sig
    have hc : w.create ≠ 0 := fun h => hnf (Or.inl h)
    cases hs : w.socket with
    | none => exact absurd (Or.inr hs) hnf
    | some nm =>
      rw [run_schedule w e0 nm hc hs n sig]
      have h1 := loopActions_setup w.create nm
      have h2 := loopActions_ticks w.create n
      simp only [loopActions] at h1 h2 ⊢
      simp [List.filter_append, h1, h2, Call.isLoopAction]

/-- C6 as stated fails: in the run with exactly one iteration the loop actions
are flush then dispatch, which is no number of repetitions of
[dispatch, flush], and the first loop action is the flush. -/
theorem acomp_tick_order_counterexample :
    loopActions (exec ⟨1, some "wayland-0"⟩ (schedule 1 Sig.sigint) (init fun _ => none)).calls
      = [Call.wl_display_flush_clients 1, Call.wl_event_loop_dispatch 100] ∧
    ¬ ∃ n, loopActions
        (exec ⟨1, some "wayland-0"⟩ (schedule 1 Sig.sigint) (init fun _ => none)).calls
      = (List.replicate n (dispatchFlush 1)).flatten := by
  have h : loopActions
      (exec ⟨1, some "wayland-0"⟩ (schedule 1 Sig.sigint) (init fun _ => none)).calls
      = [Call.wl_display_flush_clients 1, Call.wl_event_loop_dispatch 100] := by decide
  refine ⟨h, ?_⟩
  rintro ⟨n, hn⟩
  rw [h] at hn
  cases n with
  | zero => simp at hn
  | succ k => simp [List.replicate_succ, dispatchFlush] at hn

/-- C6 (as the code has it) at a run of three iterations. -/
theorem acomp_tick_order_witness :
    loopActions (exec ⟨1, some "wayland-0"⟩ (schedule 3 Sig.sigterm) (init fun _ => none)).calls
      = (List.replicate 3 (flushDispatch 1)).flatten :=
  (acomp_tick_order ⟨1, some "wayland-0"⟩ (fun _ => none)).2.2.2 (by decide) 3 Sig.sigterm

theorem mem_ticks (d n : Nat) (c : Call) (h : c ∈ ticks d n) : c ∈ tick d := by
  induction n with
  | zero => simp [ticks] at h
  | succ k ih =>
    simp only [ticks, List.mem_append] at h
    rcases h with h | h
    · exact ih h
    · exact h

/-- Every `wl_event_loop_dispatch` call of a reachable state has timeout 100. -/
theorem dispatch_timeout (w : World) (e0 : Env) (s : State) (h : Inv w e0 s) (t : Int)
    (ht : Call.wl_event_loop_dispatch t ∈ s.calls) : t = 100 := by
  obtain ⟨pc, d, r, so, hs, env, calls⟩ := s
  have key : ∀ nm n (tl : List Call), (∀ c ∈ tl, c.isDispatch = false) →
      Call.wl_event_loop_dispatch t ∈ setup w.create nm ++ ticks w.create n ++ tl →
      t = 100 := by
    intro nm n tl htl hm
    simp only [List.mem_append] at hm
    rcases hm with (hm | hm) | hm
    · simp [setup] at hm
    · have := mem_ticks _ _ _ hm
      simpa [tick] using this
    · have := htl _ hm
      simp [Call.isDispatch] at this
  cases pc <;> simp only [Inv] at h
  case l21 => obtain ⟨_, _, h3⟩ := h; subst h3; simp at ht
  case l22 => obtain ⟨_, _, h3⟩ := h; subst h3; simp at ht
  case l24 => obtain ⟨_, _, h3⟩ := h; subst h3; simp at ht
  case l30 => obtain ⟨_, _, _, _, h3⟩ := h; subst h3; simp at ht
  case l39 => obtain ⟨_, _, _, _, _, _, h3⟩ := h; subst h3; simp at ht
  case l44 =>
    obtain ⟨nm, n, _, h3⟩ := h; subst h3
    exact key nm n [] (by simp) (by simpa using ht)
  case l45 =>
    obtain ⟨nm, n, _, h3⟩ := h; subst h3
    exact key nm n [] (by simp) (by simpa using ht)
  case l46 =>
    obtain ⟨nm, n, _, h3⟩ := h; subst h3
    exact key nm n _ (by simp [Call.isDispatch]) ht
  case l50 =>
    obtain ⟨nm, n, _, _, h3⟩ := h; subst h3
    exact key nm n [] (by simp) (by simpa using ht)
  case exited c =>
    rcases h with ⟨_, _, _, h3⟩ | ⟨_, _, _, _, h3⟩ | ⟨_, nm, n, _, _, h3⟩
    · subst h3; simp at ht
    · subst h3; simp at ht
    · subst h3; exact key nm n _ (by simp [Call.isDispatch]) ht
  case killed c =>
    obtain ⟨_, _, h3 | h3⟩ := h
    · subst h3; simp at ht
    · subst h3; simp at ht

/-- C7: no poll of `acomp` blocks indefinitely.  Every
`wl_event_loop_dispatch` call of every run is made with the timeout 100, which is
non-negative and is not the block-forever value -1; line 46 passes that constant
in every state, and after it control returns to the loop condition of line 44,
where `running` is examined again. -/
theorem acomp_bounded_poll (w : World) (e0 : Env) :
    (∀ evs t, Call.wl_event_loop_dispatch t ∈ (exec w evs (init e0)).calls →
      t = 100 ∧ 0 ≤ t ∧ t ≠ -1) ∧
    (∀ s : State, s.pc = .l46 →
      (step w s).calls = s.calls ++
        [Call.wl_display_get_event_loop s.display, Call.wl_event_loop_dispatch 100] ∧
      (step w s).pc = .l44 ∧
      (step w (step w s)).pc = (if s.running then Pc.l45 else Pc.l50)) := by
  refine ⟨?_, ?_⟩
  · intro evs t ht
    have := dispatch_timeout w e0 _ (inv_reach w e0 evs) t ht
    subst this
    decide
  · intro s hpc
    obtain ⟨pc, d, r, so, hs, env, calls⟩ := s
    simp only at hpc
    subst hpc
    cases r <;> simp [step]

/-- C7 at the dispatch call of the first iteration. -/
theorem acomp_bounded_poll_witness :
    Call.wl_event_loop_dispatch 100 ∈
      (exec ⟨1, some "wayland-0"⟩ (List.replicate 8 Event.step) (init fun _ => none)).calls ∧
    ((100 : Int) = 100 ∧ (0 : Int) ≤ 100 ∧ (100 : Int) ≠ -1) :=
  ⟨by decide, (acomp_bounded_poll ⟨1, some "wayland-0"⟩ (fun _ => none)).1
    (List.replicate 8 Event.step) 100 (by decide)⟩

/-- C3, as the code has it: `main` does not flush again on shutdown.  In every
run that returns 0 after at least one `wl_event_loop_dispatch`, the call sequence
ends with the last iteration (flush, then get-event-loop and dispatch) followed
directly by `wl_display_destroy`: the last flush precedes the last dispatch, and
the only call after the last dispatch is the destroy. -/
theorem acomp_shutdown_order (w : World) (e0 : Env) (evs : List Event) (s : State)
    (hs : s = exec w evs (init e0)) (hpc : s.pc = .exited 0)
    (hiter : ∃ c ∈ s.calls, c.isDispatch = true) :
    (∃ pre, s.calls = pre ++
      [Call.wl_display_flush_clients w.create, Call.wl_display_get_event_loop w.create,
       Call.wl_event_loop_dispatch 100, Call.wl_display_destroy w.create]) ∧
    afterLastDispatch s.calls = [Call.wl_display_destroy w.create] ∧
    (afterLastDispatch s.calls).any Call.isFlush = false := by
  have hinv : Inv w e0 s := hs ▸ inv_reach w e0 evs
  obtain ⟨pc, d, r, so, hh, env, calls⟩ := s
  simp only at hpc
  subst hpc
  simp only [Inv] at hinv
  rcases hinv with ⟨h1, _⟩ | ⟨h1, _⟩ | ⟨_, nm, n, _, _, h3⟩
  · exact absurd h1 (by decide)
  · exact absurd h1 (by decide)
  · simp only at hiter ⊢
    subst h3
    cases n with
    | zero =>
      obtain ⟨c, hc, hd⟩ := hiter
      simp [ticks, setup] at hc
      rcases hc with hc | hc | hc | hc | hc | hc <;> subst hc <;> simp [Call.isDispatch] at hd
    | succ k =>
      have hcalls : setup w.create nm ++ ticks w.create (k + 1) ++
            [Call.wl_display_destroy w.create] =
          (setup w.create nm ++ ticks w.create k) ++
            [Call.wl_display_flush_clients w.create, Call.wl_display_get_event_loop w.create,
             Call.wl_event_loop_dispatch 100, Call.wl_display_destroy w.create] := by
        simp [ticks, tick]
      rw [hcalls]
      refine ⟨⟨_, rfl⟩, ?_, ?_⟩ <;>
        simp [afterLastDispatch, List.reverse_append, List.takeWhile, Call.isDispatch,
          Call.isFlush]

/-- C3 as stated fails: the run with exactly one iteration returns 0, has
called `wl_event_loop_dispatch`, and calls only `wl_display_destroy` after the
last dispatch, so no `wl_display_flush_clients` lies between the two. -/
theorem acomp_shutdown_order_counterexample :
    (exec ⟨1, some "wayland-0"⟩ (schedule 1 Sig.sigint) (init fun _ => none)).pc = .exited 0 ∧
    Call.wl_event_loop_dispatch 100 ∈
      (exec ⟨1, some "wayland-0"⟩ (schedule 1 Sig.sigint) (init fun _ => none)).calls ∧
    afterLastDispatch
      (exec ⟨1, some "wayland-0"⟩ (schedule 1 Sig.sigint) (init fun _ => none)).calls
      = [Call.wl_display_destroy 1] ∧
    ¬ ∃ c ∈ afterLastDispatch
        (exec ⟨1, some "wayland-0"⟩ (schedule 1 Sig.sigint) (init fun _ => none)).calls,
      c.isFlush = true := by
  decide

/-- C3 (as the code has it) at a run of two iterations stopped by SIGTERM. -/
theorem acomp_shutdown_order_witness :
    afterLastDispatch
      (exec ⟨1, some "wayland-0"⟩ (schedule 2 Sig.sigterm) (init fun _ => none)).calls
      = [Call.wl_display_destroy 1] :=
  (acomp_shutdown_order ⟨1, some "wayland-0"⟩ (fun _ => none) (schedule 2 Sig.sigterm) _ rfl
    (by decide) ⟨Call.wl_event_loop_dispatch 100, by decide, rfl⟩).2.1

/-! ### The socket name in the environment (C4) -/

theorem setenv_get (e0 : Env) (nm : String) :
    setenv e0 "WAYLAND_DISPLAY" nm 1 "WAYLAND_DISPLAY" = some nm := by
  simp [setenv]

theorem setenv_other (e0 : Env) (nm k : String) (hk : k ≠ "WAYLAND_DISPLAY") :
    setenv e0 "WAYLAND_DISPLAY" nm 1 k = e0 k := by
  simp [setenv, hk]

/-- From the loop condition on, and as soon as any loop action has been called,
start-up is complete. -/
theorem ready_of_loop (w : World) (e0 : Env) (s : State) (h : Inv w e0 s)
    (hl : s.pc = .l44 ∨ loopActions s.calls ≠ []) :
    ∃ nm, Ready w e0 nm s ∧ ∃ rest, s.calls = setup w.create nm ++ rest := by
  obtain ⟨pc, d, r, so, hs, env, calls⟩ := s
  cases pc <;> simp only [Inv] at h
  case l21 =>
    obtain ⟨_, _, h3⟩ := h; subst h3; simp [loopActions] at hl
  case l22 =>
    obtain ⟨_, _, h3⟩ := h; subst h3; simp [loopActions, Call.isLoopAction] at hl
  case l24 =>
    obtain ⟨_, _, h3⟩ := h; subst h3; simp [loopActions, Call.isLoopAction] at hl
  case l30 =>
    obtain ⟨_, _, _, _, h3⟩ := h; subst h3; simp [loopActions, Call.isLoopAction] at hl
  case l39 =>
    obtain ⟨_, _, _, _, _, _, h3⟩ := h; subst h3
    simp [loopActions, Call.isLoopAction] at hl
  case l44 => obtain ⟨nm, n, h1, h3⟩ := h; exact ⟨nm, h1, _, h3⟩
  case l45 => obtain ⟨nm, n, h1, h3⟩ := h; exact ⟨nm, h1, _, h3⟩
  case l46 =>
    obtain ⟨nm, n, h1, h3⟩ := h
    exact ⟨nm, h1, ticks w.create n ++ [Call.wl_display_flush_clients w.create], by
      simp only at h3 ⊢; rw [h3, List.append_assoc]⟩
  case l50 => obtain ⟨nm, n, h1, _, h3⟩ := h; exact ⟨nm, h1, _, h3⟩
  case exited c =>
    rcases h with ⟨_, _, _, h3⟩ | ⟨_, _, _, _, h3⟩ | ⟨_, nm, n, h1, _, h3⟩
    · subst h3; simp [loopActions, Call.isLoopAction] at hl
    · subst h3; simp [loopActions, Call.isLoopAction] at hl
    · exact ⟨nm, h1, ticks w.create n ++ [Call.wl_display_destroy w.create], by
        simp only at h3 ⊢; rw [h3, List.append_assoc]⟩
  case killed c =>
    obtain ⟨_, _, h3 | h3⟩ := h
    · subst h3; simp [loopActions] at hl
    · subst h3; simp [loopActions, Call.isLoopAction] at hl

/-- C4: the automatically chosen socket name is exported.  When
`wl_display_create` and `wl_display_add_socket_auto` succeed, the latter
returning `nm`: the five start-up statements lead to the loop condition with
`WAYLAND_DISPLAY` bound to `nm` and no loop action called yet; and in every state
of every run that stands at the loop condition or has called a loop action, the
environment is the initial one with `WAYLAND_DISPLAY` rebound to `nm` by
`setenv(..., 1)` (whatever it held before, other variables untouched), that call
being part of the start-up calls that precede every loop action.  When display
creation or socket binding fails, the environment is the initial one in every
state of every run. -/
theorem acomp_exports_socket_name (w : World) (e0 : Env) :
    (∀ nm, w.create ≠ 0 → w.socket = some nm →
      ((exec w (List.replicate 5 Event.step) (init e0)).pc = .l44 ∧
        (exec w (List.replicate 5 Event.step) (init e0)).env "WAYLAND_DISPLAY" = some nm ∧
        loopActions (exec w (List.replicate 5 Event.step) (init e0)).calls = []) ∧
      (∀ evs, ((exec w evs (init e0)).pc = .l44 ∨
          loopActions (exec w evs (init e0)).calls ≠ []) →
        (exec w evs (init e0)).env = setenv e0 "WAYLAND_DISPLAY" nm 1 ∧
        (exec w evs (init e0)).env "WAYLAND_DISPLAY" = some nm ∧
        (∀ k, k ≠ "WAYLAND_DISPLAY" → (exec w evs (init e0)).env k = e0 k) ∧
        ∃ rest, (exec w evs (init e0)).calls =
          [Call.signal SIGINT, Call.signal SIGTERM, Call.wl_display_create,
           Call.wl_display_add_socket_auto w.create,
           Call.setenv "WAYLAND_DISPLAY" nm 1] ++ rest)) ∧
    (w.failed → ∀ evs, (exec w evs (init e0)).env = e0) := by
  refine ⟨?_, ?_⟩
  · intro nm hc hs
    refine ⟨?_, ?_⟩
    · rw [run_setup w e0 nm hc hs]
      exact ⟨rfl, setenv_get e0 nm, loopActions_setup _ _⟩
    · intro evs hl
      obtain ⟨nm2, ⟨_, _, _, h4, h5⟩, rest, h6⟩ :=
        ready_of_loop w e0 _ (inv_reach w e0 evs) hl
      have hnm : nm2 = nm := by
        rw [hs] at h4
        exact (Option.some.inj h4).symm
      subst hnm
      refine ⟨h5, ?_, ?_, rest, h6⟩
      · rw [h5]; exact setenv_get e0 _
      · intro k hk
        rw [h5]; exact setenv_other e0 _ k hk
  · intro hf evs
    exact (failed_quiet w e0 _ (inv_reach w e0 evs) hf).1

/-- C4 at a world that names the socket "wayland-1", started with the variable
already set. -/
theorem acomp_exports_socket_name_witness :
    (exec ⟨1, some "wayland-1"⟩ (List.replicate 5 Event.step)
      (init fun k => if k = "WAYLAND_DISPLAY" then some "wayland-0" else none)).env
        "WAYLAND_DISPLAY" = some "wayland-1" :=
  ((acomp_exports_socket_name ⟨1, some "wayland-1"⟩
      (fun k => if k = "WAYLAND_DISPLAY" then some "wayland-0" else none)).1
      "wayland-1" (by decide) rfl).1.2.1

end Acomp

/-! ## Facts about the libc functions -/

theorem fgetsLine_eq_nil (n : Nat) (s : List Byte) : fgetsLine (n + 1) s = [] ↔ s = [] := by
  cases s with
  | nil => simp [fgetsLine]
  | cons c cs =>
    simp only [fgetsLine]
    split <;> simp

theorem mem_fgetsLine (n : Nat) : ∀ (s : List Byte) (c : Byte), c ∈ fgetsLine n s → c ∈ s := by
  induction n with
  | zero => intro s c h; cases s <;> simp [fgetsLine] at h
  | succ k ih =>
    intro s c h
    cases s with
    | nil => simp [fgetsLine] at h
    | cons x xs =>
      simp only [fgetsLine] at h
      split at h
      · simp at h; simp [h]
      · simp only [List.mem_cons] at h ⊢
        rcases h with h | h
        · exact Or.inl h
        · exact Or.inr (ih xs c h)

theorem fgetsLine_length (n : Nat) : ∀ s : List Byte, (fgetsLine n s).length ≤ n := by
  induction n with
  | zero => intro s; cases s <;> simp [fgetsLine]
  | succ k ih =>
    intro s
    cases s with
    | nil => simp [fgetsLine]
    | cons x xs =>
      simp only [fgetsLine]
      split
      · simp
      · simpa using ih xs

/-- Cutting the stored line at its newline is cutting the first `n` bytes of
the stream at their first newline. -/
theorem takeWhile_fgetsLine (n : Nat) : ∀ s : List Byte,
    (fgetsLine n s).takeWhile (fun c => c != 10) = (s.take n).takeWhile (fun c => c != 10) := by
  induction n with
  | zero => intro s; cases s <;> simp [fgetsLine]
  | succ k ih =>
    intro s
    cases s with
    | nil => simp [fgetsLine]
    | cons x xs =>
      simp only [fgetsLine, List.take_succ_cons]
      by_cases hx : x = 10
      · simp [hx]
      · have hb : (x != 10) = true := by simp [hx]
        simp [hx, List.takeWhile_cons, hb, ih xs]

/-- The result of `fgets` for a buffer of at least two bytes. -/
theorem fgets_fst (buf : List Byte) (n : Nat) (s : List Byte) :
    (fgets buf (n + 2) s).1 =
      if s = [] then none
      else some (fgetsLine (n + 1) s ++ [0] ++ buf.drop ((fgetsLine (n + 1) s).length + 1)) := by
  have h := fgetsLine_eq_nil n s
  by_cases hs : s = []
  · subst hs
    simp [fgets, fgetsLine]
  · have hne : fgetsLine (n + 1) s ≠ [] := fun hl => hs (h.mp hl)
    simp [fgets, hs, hne]

/-- Storing a NUL where `strcspn` points cuts the string at the first byte of
the reject set. -/
theorem cstr_set_strcspn (reject : List Byte) : ∀ l : List Byte,
    cstr (l.set (strcspn l reject) 0) =
      l.takeWhile (fun c => c != 0 && !reject.contains c) := by
  intro l
  induction l with
  | nil => simp [cstr, strcspn]
  | cons x xs ih =>
    by_cases hx : (x != 0 && !reject.contains x) = true
    · have hx0 : (x != 0) = true := by
        simp only [Bool.and_eq_true] at hx
        exact hx.1
      have e1 : List.takeWhile (fun c => c != 0 && !reject.contains c) (x :: xs) =
          x :: List.takeWhile (fun c => c != 0 && !reject.contains c) xs := by
        rw [List.takeWhile_cons]
        simp only [hx, if_true]
      simp only [strcspn, cstr] at ih ⊢
      rw [e1, List.length_cons, List.set_cons_succ, List.takeWhile_cons]
      simp only [hx0, if_true]
      rw [ih]
    · have e1 : List.takeWhile (fun c => c != 0 && !reject.contains c) (x :: xs) = [] := by
        rw [List.takeWhile_cons]
        simp only [hx]
        simp
      simp only [strcspn, cstr]
      rw [e1]
      simp

/-- On a NUL-free line followed by a NUL, the bytes before the first NUL or
newline are the bytes of the line before its first newline. -/
theorem takeWhile_line (rest : List Byte) : ∀ line : List Byte, (∀ c ∈ line, c ≠ 0) →
    (line ++ [0] ++ rest).takeWhile (fun c => c != 0 && !([10] : List Byte).contains c) =
      line.takeWhile (fun c => c != 10) := by
  intro line
  induction line with
  | nil => intro _; simp
  | cons x xs ih =>
    intro h
    have hx : x ≠ 0 := h x (by simp)
    have ih2 := ih (fun c hc => h c (by simp [hc]))
    by_cases h10 : x = 10
    · simp [h10]
    · simp only [List.cons_append, List.takeWhile_cons]
      simp only [List.append_assoc, List.singleton_append] at ih2
      simpa [hx, h10] using ih2

/-- The bytes before the first newline among the first `n` form the longest
newline-free prefix of at most `n` bytes. -/
theorem takeWhile_take_longest (n : Nat) (s : List Byte) :
    (s.take n).takeWhile (fun c => c != 10) <+: s ∧
    (10 : Byte) ∉ (s.take n).takeWhile (fun c => c != 10) ∧
    ((s.take n).takeWhile (fun c => c != 10)).length ≤ n ∧
    ∀ p : List Byte, p <+: s → (10 : Byte) ∉ p → p.length ≤ n →
      p <+: (s.take n).takeWhile (fun c => c != 10) := by
  refine ⟨?_, ?_, ?_, ?_⟩
  · exact (List.takeWhile_prefix _).trans (List.take_prefix n s)
  · intro h
    have := List.mem_takeWhile_imp h
    simp at this
  · exact ((List.takeWhile_prefix _).length_le).trans (by simp)
  · rintro p ⟨q, rfl⟩ hp hlen
    have h1 : (p ++ q).take n = p ++ q.take (n - p.length) := by
      rw [List.take_append_eq_append_take, List.take_of_length_le hlen]
    rw [h1, List.takeWhile_append]
    have h2 : (List.takeWhile (fun c => c != 10) p) = p := by
      rw [List.takeWhile_eq_self_iff]
      intro c hc
      have : c ≠ 10 := fun h => hp (h ▸ hc)
      simp [this]
    simp [h2]

/-- What a client prints for `%s` after `fgets` and the cut at the newline: the
bytes before the first newline among the first `n + 1` bytes of a NUL-free
stream. -/
theorem cut_line (buf : List Byte) (n : Nat) (s : List Byte) (hnul : ∀ b ∈ s, b ≠ 0)
    (hs : s ≠ []) :
    ∃ filled, (fgets buf (n + 2) s).1 = some filled ∧
      cstr (filled.set (strcspn filled [10]) 0) =
        (s.take (n + 1)).takeWhile (fun c => c != 10) := by
  refine ⟨_, by rw [fgets_fst, if_neg hs], ?_⟩
  rw [cstr_set_strcspn, takeWhile_line, takeWhile_fgetsLine]
  intro c hc
  exact hnul c (mem_fgetsLine _ _ _ hc)

theorem digitsValue_nul (rest : List Byte) : ∀ (l : List Byte) (acc : Nat),
    digitsValue (l ++ 0 :: rest) acc = digitsValue l acc := by
  intro l
  induction l with
  | nil => intro acc; simp [digitsValue, isdigit]
  | cons x xs ih =>
    intro acc
    simp only [List.cons_append, digitsValue]
    split
    · exact ih _
    · rfl

theorem signedValue_nul (rest l : List Byte) :
    signedValue (l ++ 0 :: rest) = signedValue l := by
  cases l with
  | nil => simp [signedValue, digitsValue, isdigit]
  | cons x xs =>
    simp only [List.cons_append, signedValue]
    have h := digitsValue_nul rest (x :: xs) 0
    simp only [List.cons_append] at h
    rw [digitsValue_nul, h]

theorem parseDecimal_nul (rest : List Byte) : ∀ l : List Byte,
    parseDecimal (l ++ 0 :: rest) = parseDecimal l := by
  intro l
  induction l with
  | nil => simp [parseDecimal, List.dropWhile, isspace, signedValue, digitsValue, isdigit]
  | cons x xs ih =>
    simp only [parseDecimal, List.cons_append, List.dropWhile_cons] at ih ⊢
    split
    · exact ih
    · have h := signedValue_nul rest (x :: xs)
      simpa using h

/-- The function `atoi` reads a buffer no further than its first NUL. -/
theorem atoi_nul (line rest : List Byte) : atoi (line ++ [0] ++ rest) = atoi line := by
  have h := parseDecimal_nul rest line
  simp only [List.append_assoc, List.singleton_append, atoi, h]

/-! ## Facts about the clients' use of the registry -/

namespace Client

theorem created_append (a b : List Call) : created (a ++ b) = created a ++ created b := by
  induction a with
  | nil => rfl
  | cons x xs ih => cases x <;> simp [created, ih]

theorem destroyed_append (a b : List Call) :
    destroyed (a ++ b) = destroyed a ++ destroyed b := by
  induction a with
  | nil => rfl
  | cons x xs ih => cases x <;> simp [destroyed, ih]

theorem registry_global_match (w : World) (registry name version : Nat) (s : State) :
    registry_global w registry name w.compositor_name version s =
      { s with compositor := s.next, next := s.next + 1,
               calls := s.calls ++
                 [Call.wl_registry_bind registry name w.compositor_name 1 s.next] } := by
  simp [registry_global]

theorem registry_global_skip (w : World) (registry name version : Nat) (interface : String)
    (s : State) (hi : interface ≠ w.compositor_name) :
    registry_global w registry name interface version s = s := by
  simp [registry_global, hi]

/-- What the listener does with a sequence of events: it binds one fresh proxy
per announcement of the compositor interface and keeps the last one. -/
theorem listener_fold (w : World) (registry : Nat) : ∀ (evs : List RegistryEvent) (s : State),
    ∃ binds : List Call,
      (evs.foldl (registry_listener w registry) s).calls = s.calls ++ binds ∧
      (evs.foldl (registry_listener w registry) s).next =
        s.next + evs.countP (announcesCompositor w) ∧
      (evs.foldl (registry_listener w registry) s).surface = s.surface ∧
      (evs.foldl (registry_listener w registry) s).compositor =
        (if evs.countP (announcesCompositor w) = 0 then s.compositor
         else s.next + evs.countP (announcesCompositor w) - 1) ∧
      created binds = List.range' s.next (evs.countP (announcesCompositor w)) ∧
      destroyed binds = [] ∧
      ∀ c r, Call.wl_compositor_create_surface c r ∉ binds := by
  intro evs
  induction evs with
  | nil => intro s; exact ⟨[], by simp, by simp, rfl, by simp, by simp [created], rfl, by simp⟩
  | cons e es ih =>
    intro s
    cases e with
    | global_remove name =>
      obtain ⟨binds, h1, h2, h3, h4, h5, h6, h7⟩ := ih s
      have hk : List.countP (announcesCompositor w) (RegistryEvent.global_remove name :: es) =
          List.countP (announcesCompositor w) es := by
        simp [List.countP_cons, announcesCompositor]
      rw [hk]
      exact ⟨binds, h1, h2, h3, h4, h5, h6, h7⟩
    | global name interface version =>
      by_cases hi : interface = w.compositor_name
      · subst hi
        have hk : List.countP (announcesCompositor w)
            (RegistryEvent.global name w.compositor_name version :: es) =
            List.countP (announcesCompositor w) es + 1 := by
          simp [List.countP_cons, announcesCompositor]
        obtain ⟨binds, h1, h2, h3, h4, h5, h6, h7⟩ :=
          ih (registry_global w registry name w.compositor_name version s)
        rw [registry_global_match] at h1 h2 h3 h4 h5
        simp only at h1 h2 h3 h4 h5
        rw [hk]
        simp only [List.foldl_cons, registry_listener]
        refine ⟨Call.wl_registry_bind registry name w.compositor_name 1 s.next :: binds,
          ?_, ?_, ?_, ?_, ?_, ?_, ?_⟩
        · rw [registry_global_match, h1]; simp
        · rw [registry_global_match, h2]; omega
        · rw [registry_global_match, h3]
        · rw [registry_global_match, h4, if_neg (Nat.succ_ne_zero _)]
          by_cases hk0 : List.countP (announcesCompositor w) es = 0
          · rw [if_pos hk0, hk0]
            rfl
          · rw [if_neg hk0]
            omega
        · rw [List.range'_succ]
          simp [created, h5]
        · simp [destroyed, h6]
        · intro c r hm
          simp only [List.mem_cons] at hm
          rcases hm with hm | hm
          · exact absurd hm (by simp)
          · exact h7 c r hm
      · have hk : List.countP (announcesCompositor w)
            (RegistryEvent.global name interface version :: es) =
            List.countP (announcesCompositor w) es := by
          simp [List.countP_cons, announcesCompositor, hi]
        obtain ⟨binds, h1, h2, h3, h4, h5, h6, h7⟩ := ih s
        rw [hk]
        simp only [List.foldl_cons, registry_listener, registry_global_skip _ _ _ _ _ _ hi]
        exact ⟨binds, h1, h2, h3, h4, h5, h6, h7⟩

/-- The effect of `wl_display_roundtrip` on the state. -/
theorem roundtrip_eq (w : World) (display registry : Nat) (evs : List RegistryEvent)
    (s : State) :
    ∃ binds : List Call,
      roundtrip w display registry evs s =
        { compositor := if evs.countP (announcesCompositor w) = 0 then s.compositor
                        else s.next + evs.countP (announcesCompositor w) - 1,
          surface := s.surface,
          next := s.next + evs.countP (announcesCompositor w),
          calls := s.calls ++ Call.wl_display_roundtrip display :: binds } ∧
      created binds = List.range' s.next (evs.countP (announcesCompositor w)) ∧
      destroyed binds = [] ∧
      ∀ c r, Call.wl_compositor_create_surface c r ∉ binds := by
  obtain ⟨binds, h1, h2, h3, h4, h5, h6, h7⟩ := listener_fold w registry evs
    { s with calls := s.calls ++ [Call.wl_display_roundtrip display] }
  refine ⟨binds, ?_, h5, h6, h7⟩
  unfold roundtrip
  generalize List.foldl (registry_listener w registry) _ evs = t at h1 h2 h3 h4
  obtain ⟨c, sf, n, cs⟩ := t
  simp only at h1 h2 h3 h4
  subst h1 h2 h3 h4
  simp

end Client

/-! ## alogin: the text-mode greeting (C8) -/

namespace Alogin

open Client

theorem alogin_main_code (w : World) : (main w).code = 0 := by
  unfold main
  simp only
  split
  · split <;> rfl
  · rfl

/-- C8: the text-mode fallback of `alogin` greets exactly the typed line without
its newline.  `main` returns 0 in every case.  When `wl_display_connect` fails:
at end of file the calls are those up to the `fgets` and no welcome line is among
them; otherwise, for input without a NUL byte, exactly one more call follows, the
`printf` of the welcome line, whose name is the bytes before the first newline
among the first 255 bytes of the input, and that name is the longest prefix of
the input that contains no newline and has at most 255 bytes (every such prefix
is a prefix of it). -/
theorem alogin_text_mode_greeting (w : World) :
    (main w).code = 0 ∧
    (∀ args, Call.printf welcomeFmt args ∉ textCalls) ∧
    (w.connect = 0 → w.stdin = [] → (main w).calls = textCalls) ∧
    (w.connect = 0 → w.stdin ≠ [] → (∀ b ∈ w.stdin, b ≠ 0) →
      (main w).calls = textCalls ++
        [Call.printf welcomeFmt [(w.stdin.take 255).takeWhile (fun c => c != 10)]] ∧
      (w.stdin.take 255).takeWhile (fun c => c != 10) <+: w.stdin ∧
      (10 : Byte) ∉ (w.stdin.take 255).takeWhile (fun c => c != 10) ∧
      ((w.stdin.take 255).takeWhile (fun c => c != 10)).length ≤ 255 ∧
      ∀ p : List Byte, p <+: w.stdin → (10 : Byte) ∉ p → p.length ≤ 255 →
        p <+: (w.stdin.take 255).takeWhile (fun c => c != 10)) := by
  refine ⟨alogin_main_code w, ?_, ?_, ?_⟩
  · intro args
    simp [textCalls, banner, welcomeFmt]
  · intro hc hs
    have h := fgets_fst (localArray w 256) 254 w.stdin
    rw [if_pos hs] at h
    simp only [Nat.reduceAdd] at h
    simp only [main, hc, if_true, h]
  · intro hc hs hnul
    obtain ⟨filled, h1, h2⟩ := cut_line (localArray w 256) 254 w.stdin hnul hs
    simp only [Nat.reduceAdd] at h1 h2
    refine ⟨?_, takeWhile_take_longest 255 w.stdin⟩
    simp only [main, hc, if_true, h1, h2]

/-- C8 at the input "bob", newline, "eve". -/
theorem alogin_text_mode_greeting_witness :
    (main ⟨0, bytes "bob\neve\n", fun _ => 7, "wl_compositor", [], []⟩).calls =
      textCalls ++ [Call.printf welcomeFmt [bytes "bob"]] :=
  ((alogin_text_mode_greeting ⟨0, bytes "bob\neve\n", fun _ => 7, "wl_compositor", [], []⟩).2.2.2
    rfl (by decide) (by decide)).1

end Alogin

/-! ## introibo: the text-mode menu (C9) -/

namespace Introibo

open Client

theorem introibo_main_code (w : World) : (main w).code = 0 := by
  unfold main
  simp only
  split
  · split <;> rfl
  · rfl

theorem introibo_main_text (w : World) (hc : w.connect = 0) :
    (main w).calls =
      if w.stdin = [] then textCalls
      else textCalls ++ [Call.printf (menuMessage (atoi (fgetsLine 9 w.stdin))) []] := by
  have h := fgets_fst (localArray w 10) 8 w.stdin
  simp only [Nat.reduceAdd] at h
  by_cases hs : w.stdin = []
  · rw [if_pos hs] at h
    rw [if_pos hs]
    simp only [main, hc, if_true, h]
  · rw [if_neg hs] at h
    rw [if_neg hs]
    simp only [main, hc, if_true, h, atoi_nul]

/-- C9: the text-mode menu of `introibo` is a total function of the first at
most 9 bytes of the input line.  `main` returns 0 in every case.  When
`wl_display_connect` fails: at end of file the calls are those up to the `fgets`,
none of which prints a menu message; otherwise exactly one more call follows, the
`printf` of the message the `switch` selects for `n = atoi` of the bytes `fgets`
stored (at most 9, up to the first newline), so exactly one menu message is
printed; two inputs with the same stored bytes give the same calls.  The `switch`
selects the disk message for 1, the live message for 2, the configuration message
for 3 and the exit message for every other `n`; the entries "4", "0", "-2", "abc"
and the ten digits "0000000001" (read as nine zeros) all give the exit
message. -/
theorem introibo_text_menu (w : World) :
    (main w).code = 0 ∧
    (w.connect = 0 → w.stdin = [] →
      (main w).calls = textCalls ∧ ((main w).calls.filter isMenuMessage).length = 0) ∧
    (w.connect = 0 → w.stdin ≠ [] →
      (main w).calls =
        textCalls ++ [Call.printf (menuMessage (atoi (fgetsLine 9 w.stdin))) []] ∧
      ((main w).calls.filter isMenuMessage).length = 1) ∧
    (∀ w2 : World, w.connect = 0 → w2.connect = 0 →
      fgetsLine 9 w.stdin = fgetsLine 9 w2.stdin → (main w).calls = (main w2).calls) ∧
    (menuMessage 1 = diskMessage ∧ menuMessage 2 = liveMessage ∧
      menuMessage 3 = configMessage ∧
      ∀ n : Int, n ≠ 1 → n ≠ 2 → n ≠ 3 → menuMessage n = exitMessage) ∧
    (menuMessage (atoi (fgetsLine 9 (bytes "4\n"))) = exitMessage ∧
      menuMessage (atoi (fgetsLine 9 (bytes "0\n"))) = exitMessage ∧
      menuMessage (atoi (fgetsLine 9 (bytes "-2\n"))) = exitMessage ∧
      menuMessage (atoi (fgetsLine 9 (bytes "abc\n"))) = exitMessage ∧
      fgetsLine 9 (bytes "0000000001\n") = bytes "000000000" ∧
      menuMessage (atoi (fgetsLine 9 (bytes "0000000001\n"))) = exitMessage) := by
  have hpre : textCalls.filter isMenuMessage = [] := by
    simp [textCalls, banner, isMenuMessage, diskMessage, liveMessage, configMessage,
      exitMessage]
  have hmsg : ∀ n : Int, isMenuMessage (Call.printf (menuMessage n) []) = true := by
    intro n
    simp only [isMenuMessage, menuMessage]
    split_ifs <;> simp
  refine ⟨introibo_main_code w, ?_, ?_, ?_, ?_, ?_⟩
  · intro hc hs
    have h := introibo_main_text w hc
    rw [if_pos hs] at h
    rw [h]
    exact ⟨rfl, by rw [hpre]; rfl⟩
  · intro hc hs
    have h := introibo_main_text w hc
    rw [if_neg hs] at h
    rw [h]
    refine ⟨rfl, ?_⟩
    rw [List.filter_append, hpre]
    simp [hmsg]
  · intro w2 hc hc2 hl
    rw [introibo_main_text w hc, introibo_main_text w2 hc2, hl]
    have h1 := fgetsLine_eq_nil 8 w.stdin
    have h2 := fgetsLine_eq_nil 8 w2.stdin
    simp only [Nat.reduceAdd] at h1 h2
    rw [hl] at h1
    by_cases hs : w.stdin = []
    · have hs2 : w2.stdin = [] := h2.mp (h1.mpr hs)
      simp [hs, hs2]
    · have hs2 : w2.stdin ≠ [] := fun h => hs (h1.mp (h2.mpr h))
      simp [hs, hs2]
  · refine ⟨rfl, rfl, rfl, ?_⟩
    intro n h1 h2 h3
    simp [menuMessage, h1, h2, h3]
  · refine ⟨by rfl, by rfl, by rfl, by rfl, by rfl, by rfl⟩

/-- C9 at the entry "2". -/
theorem introibo_text_menu_witness :
    (main ⟨0, bytes "2\n", fun _ => 7, "wl_compositor", [], []⟩).calls =
      textCalls ++ [Call.printf liveMessage []] :=
  ((introibo_text_menu ⟨0, bytes "2\n", fun _ => 7, "wl_compositor", [], []⟩).2.2.1
    rfl (by decide)).1

/-! ## introibo: release of protocol objects (C10) -/

theorem created_getRegistry (w : World) :
    created (getRegistry w).calls = [w.connect + 1] ∧
    destroyed (getRegistry w).calls = [] ∧
    ∀ c r, Call.wl_compositor_create_surface c r ∉ (getRegistry w).calls := by
  simp [getRegistry, banner, created, destroyed]

/-- The proxies `main` creates and destroys when it connects, for `k1`
announcements of the compositor interface in the first roundtrip and `k2` in the
second.  With display `d` the registry is proxy `d + 1`; the compositors bound
first are `d + 2, ...`; the surface, created when `k1` is not 0, follows them;
the compositors bound in the second roundtrip follow.  Destroyed are the surface
(if created), the compositor bound last (if any) and the registry, in this
order. -/
theorem introibo_proxies (w : World) (hc : w.connect ≠ 0) (k1 k2 : Nat)
    (h1 : k1 = w.roundtrip1.countP (announcesCompositor w))
    (h2 : k2 = w.roundtrip2.countP (announcesCompositor w)) :
    created (main w).calls =
      [w.connect + 1] ++ List.range' (w.connect + 2) k1 ++
        (if k1 = 0 then [] else [w.connect + 2 + k1]) ++
        List.range' (w.connect + 2 + k1 + (if k1 = 0 then 0 else 1)) k2 ∧
    destroyed (main w).calls =
      (if k1 = 0 then [] else [w.connect + 2 + k1]) ++
        (if k2 = 0 then (if k1 = 0 then [] else [w.connect + 1 + k1])
         else [w.connect + 1 + k1 + (if k1 = 0 then 0 else 1) + k2]) ++
        [w.connect + 1] ∧
    ((∃ c r, Call.wl_compositor_create_surface c r ∈ (main w).calls) ↔ k1 ≠ 0) := by
  obtain ⟨b1, e1, c1, d1, n1⟩ :=
    roundtrip_eq w w.connect (w.connect + 1) w.roundtrip1 (getRegistry w)
  obtain ⟨g1, g2, g3⟩ := created_getRegistry w
  have gn : (getRegistry w).next = w.connect + 2 := rfl
  have gc : (getRegistry w).compositor = 0 := rfl
  have gs : (getRegistry w).surface = 0 := rfl
  rw [← h1] at e1 c1
  simp only [main, if_neg hc, e1]
  rw [gn, gc, gs]
  rw [gn] at c1
  clear e1
  by_cases hk : k1 = 0
  · subst hk
    have hcs : createSurface
        { compositor := if 0 = 0 then 0 else w.connect + 2 + 0 - 1,
          surface := 0, next := w.connect + 2 + 0,
          calls := (getRegistry w).calls ++ Call.wl_display_roundtrip w.connect :: b1 } =
        { compositor := 0, surface := 0, next := w.connect + 2,
          calls := (getRegistry w).calls ++ Call.wl_display_roundtrip w.connect :: b1 } := by
      simp [createSurface]
    rw [hcs]
    obtain ⟨b2, e2, c2, d2, n2⟩ := roundtrip_eq w w.connect (w.connect + 1) w.roundtrip2
      { compositor := 0, surface := 0, next := w.connect + 2,
        calls := (getRegistry w).calls ++ Call.wl_display_roundtrip w.connect :: b1 }
    rw [← h2] at e2 c2
    simp only at e2 c2
    rw [e2]
    by_cases hk2 : k2 = 0
    · subst hk2
      simp [destroyObjects, created_append, destroyed_append, created, destroyed, g1, g2, c1,
        c2, d1, d2, g3, n1, n2]
    · have hne : w.connect + 2 + k2 - 1 ≠ 0 := by omega
      simp [destroyObjects, hk2, hne, created_append, destroyed_append, created, destroyed,
        g1, g2, c1, c2, d1, d2, g3, n1, n2]
  · have hne : w.connect + 2 + k1 - 1 ≠ 0 := by omega
    have hcs : createSurface
        { compositor := if k1 = 0 then 0 else w.connect + 2 + k1 - 1,
          surface := 0, next := w.connect + 2 + k1,
          calls := (getRegistry w).calls ++ Call.wl_display_roundtrip w.connect :: b1 } =
        { compositor := w.connect + 2 + k1 - 1, surface := w.connect + 2 + k1,
          next := w.connect + 2 + k1 + 1,
          calls := (getRegistry w).calls ++ Call.wl_display_roundtrip w.connect :: b1 ++
            [Call.wl_compositor_create_surface (w.connect + 2 + k1 - 1) (w.connect + 2 + k1),
             Call.printf "[introibo] Wayland compositor connected\n" [],
             Call.printf "[introibo] Graphical installer ready\n" [],
             Call.printf "[introibo] GUI features coming soon...\n" []] } := by
      simp [createSurface, hk, hne]
    rw [hcs]
    obtain ⟨b2, e2, c2, d2, n2⟩ := roundtrip_eq w w.connect (w.connect + 1) w.roundtrip2
      { compositor := w.connect + 2 + k1 - 1, surface := w.connect + 2 + k1,
        next := w.connect + 2 + k1 + 1,
        calls := (getRegistry w).calls ++ Call.wl_display_roundtrip w.connect :: b1 ++
            [Call.wl_compositor_create_surface (w.connect + 2 + k1 - 1) (w.connect + 2 + k1),
             Call.printf "[introibo] Wayland compositor connected\n" [],
             Call.printf "[introibo] Graphical installer ready\n" [],
             Call.printf "[introibo] GUI features coming soon...\n" []] }
    rw [← h2] at e2 c2
    simp only at e2 c2
    rw [e2]
    have hs : w.connect + 2 + k1 ≠ 0 := by omega
    by_cases hk2 : k2 = 0
    · subst hk2
      simp [destroyObjects, hk, hne, hs, created_append, destroyed_append, created, destroyed,
        g1, g2, c1, c2, d1, d2]
      exact ⟨_, _, Or.inr (Or.inr (Or.inl ⟨rfl, rfl⟩))⟩
    · have hne2 : w.connect + 2 + k1 + 1 + k2 - 1 ≠ 0 := by omega
      simp [destroyObjects, hk, hk2, hne2, hs, created_append, destroyed_append, created,
        destroyed, g1, g2, c1, c2, d1, d2]
      exact ⟨by omega, _, _, Or.inr (Or.inr (Or.inl ⟨rfl, rfl⟩))⟩

/-- What `main` releases when it connects.  A surface is created exactly when
the first roundtrip announces the compositor interface.  With at most one such
announcement in all, the proxies destroyed are the proxies created, each once, in
the reverse order of their creation (surface, compositor, registry).  With two
or more, fewer proxies are destroyed than were created. -/
theorem introibo_release (w : World) (hc : w.connect ≠ 0) :
    ((∃ c r, Call.wl_compositor_create_surface c r ∈ (main w).calls) ↔
      ∃ e ∈ w.roundtrip1, announcesCompositor w e = true) ∧
    (w.roundtrip1.countP (announcesCompositor w) +
        w.roundtrip2.countP (announcesCompositor w) ≤ 1 →
      destroyed (main w).calls = (created (main w).calls).reverse ∧
      (created (main w).calls).Nodup) ∧
    (2 ≤ w.roundtrip1.countP (announcesCompositor w) +
        w.roundtrip2.countP (announcesCompositor w) →
      (destroyed (main w).calls).length < (created (main w).calls).length) := by
  obtain ⟨hcr, hde, hsu⟩ := introibo_proxies w hc _ _ rfl rfl
  refine ⟨?_, ?_, ?_⟩
  · rw [hsu, ← Nat.pos_iff_ne_zero, List.countP_pos_iff]
  · generalize w.roundtrip1.countP (announcesCompositor w) = k1 at hcr hde
    generalize w.roundtrip2.countP (announcesCompositor w) = k2 at hcr hde
    intro hle
    rw [hcr, hde]
    have hcases : (k1 = 0 ∧ k2 = 0) ∨ (k1 = 1 ∧ k2 = 0) ∨ (k1 = 0 ∧ k2 = 1) := by omega
    rcases hcases with ⟨rfl, rfl⟩ | ⟨rfl, rfl⟩ | ⟨rfl, rfl⟩
    · simp
    · simp [List.range']
    · simp [List.range']
  · generalize w.roundtrip1.countP (announcesCompositor w) = k1 at hcr hde
    generalize w.roundtrip2.countP (announcesCompositor w) = k2 at hcr hde
    intro hge
    rw [hcr, hde]
    simp only [List.length_append, List.length_range', List.length_cons, List.length_nil]
    split_ifs <;> simp <;> omega

/-- C10 fails on the code when the server announces the compositor interface
twice: `registry_global` binds both globals (proxies 3 and 4) but keeps only the
second in the static `compositor`, so `main` destroys the surface (5), the second
compositor (4) and the registry (2), and the first compositor proxy (3) is never
destroyed before `wl_display_disconnect`. -/
theorem introibo_rebound_compositor_not_destroyed :
    (main twoCompositors).calls =
      banner ++
      [Call.wl_display_connect,
       Call.wl_display_get_registry 1 2,
       Call.wl_registry_add_listener 2,
       Call.wl_display_roundtrip 1,
       Call.wl_registry_bind 2 1 "wl_compositor" 1 3,
       Call.wl_registry_bind 2 2 "wl_compositor" 1 4,
       Call.wl_compositor_create_surface 4 5,
       Call.printf "[introibo] Wayland compositor connected\n" [],
       Call.printf "[introibo] Graphical installer ready\n" [],
       Call.printf "[introibo] GUI features coming soon...\n" [],
       Call.wl_display_roundtrip 1,
       Call.wl_surface_destroy 5,
       Call.wl_compositor_destroy 4,
       Call.wl_registry_destroy 2,
       Call.wl_display_disconnect 1] ∧
    created (main twoCompositors).calls = [2, 3, 4, 5] ∧
    destroyed (main twoCompositors).calls = [5, 4, 2] ∧
    3 ∈ created (main twoCompositors).calls ∧
    3 ∉ destroyed (main twoCompositors).calls := by
  refine ⟨by rfl, by rfl, by rfl, ?_, ?_⟩
  · have h : created (main twoCompositors).calls = [2, 3, 4, 5] := by rfl
    rw [h]; decide
  · have h : destroyed (main twoCompositors).calls = [5, 4, 2] := by rfl
    rw [h]; decide

end Introibo

end ALinux
